import Mathlib

set_option maxHeartbeats 1000000
set_option maxRecDepth 10000

/-!
Shallow embedding of the tecotec blog scraper tool (`tecotecBlogScraperTool`)
and the blog-list formatter tool (`formatBlogListTool`).

Modelling conventions:
* JavaScript timestamps are milliseconds since the Unix epoch, as `Int`;
  `NaN` timestamps are `Option.none`.
* `new Date(string)` is modelled by `jsDateParse`, covering the ECMAScript
  Date Time String Format (the only format this program produces or consumes);
  the host timezone is taken to be UTC, so date-times without an offset are
  read as UTC.
* The DOM of one listing page is modelled by the record of values the scraper
  extracts from it (`Entry`, `Page`); `cheerio` accessor results that can be
  `undefined` are `Option`s.
* `fetch` plus parsing of one page is a function `String → FetchResult`
  supplied as a parameter (`world`); a thrown exception is `FetchResult.err`.
-/

/-! ### Decimal rendering (JavaScript template interpolation of numbers) -/

def digChar (d : Nat) : Char :=
  match d with
  | 0 => '0' | 1 => '1' | 2 => '2' | 3 => '3' | 4 => '4'
  | 5 => '5' | 6 => '6' | 7 => '7' | 8 => '8' | 9 => '9'
  | _ => '*'

def natDigitsAux : Nat → Nat → List Nat
  | 0, _ => []
  | fuel+1, n => if n = 0 then [] else natDigitsAux fuel (n / 10) ++ [n % 10]

def natDigits (n : Nat) : List Nat :=
  if n = 0 then [0] else natDigitsAux n n

def natRepr (n : Nat) : String := String.mk ((natDigits n).map digChar)

def intRepr (i : Int) : String :=
  if i < 0 then "-" ++ natRepr (-i).toNat else natRepr i.toNat

theorem natDigitsAux_foldl (fuel : Nat) : ∀ n acc, n ≤ fuel →
    List.foldl (fun a d => a * 10 + d) acc (natDigitsAux fuel n)
      = acc * 10 ^ (natDigitsAux fuel n).length + n := by
  induction fuel with
  | zero =>
    intro n acc h
    have : n = 0 := Nat.le_zero.mp h
    subst this
    simp [natDigitsAux]
  | succ fuel ih =>
    intro n acc h
    by_cases h0 : n = 0
    · subst h0; simp [natDigitsAux]
    · have hlt : n / 10 < n := Nat.div_lt_self (Nat.pos_of_ne_zero h0) (by norm_num)
      have hle : n / 10 ≤ fuel := by omega
      simp only [natDigitsAux, if_neg h0]
      rw [List.foldl_append, ih _ _ hle]
      simp only [List.foldl_cons, List.foldl_nil, List.length_append, List.length_singleton]
      have hmod : 10 * (n / 10) + n % 10 = n := Nat.div_add_mod n 10
      calc (acc * 10 ^ (natDigitsAux fuel (n / 10)).length + n / 10) * 10 + n % 10
          = acc * (10 ^ (natDigitsAux fuel (n / 10)).length * 10)
              + (10 * (n / 10) + n % 10) := by ring
        _ = acc * 10 ^ ((natDigitsAux fuel (n / 10)).length + 1) + n := by
            rw [pow_succ, hmod]

theorem digitsVal_natDigits (n : Nat) :
    List.foldl (fun a d => a * 10 + d) 0 (natDigits n) = n := by
  unfold natDigits
  by_cases h : n = 0
  · subst h; simp
  · rw [if_neg h, natDigitsAux_foldl n n 0 (le_refl n)]
    simp

theorem natDigits_injective (a b : Nat) (h : natDigits a = natDigits b) : a = b := by
  have ha := digitsVal_natDigits a
  have hb := digitsVal_natDigits b
  rw [h] at ha
  omega

theorem natDigitsAux_lt (fuel : Nat) : ∀ n d, d ∈ natDigitsAux fuel n → d < 10 := by
  induction fuel with
  | zero => intro n d hd; simp [natDigitsAux] at hd
  | succ fuel ih =>
    intro n d hd
    by_cases h0 : n = 0
    · subst h0; simp [natDigitsAux] at hd
    · simp only [natDigitsAux, if_neg h0, List.mem_append, List.mem_singleton] at hd
      rcases hd with hd | hd
      · exact ih _ _ hd
      · subst hd; exact Nat.mod_lt _ (by norm_num)

theorem natDigits_lt (n d : Nat) (hd : d ∈ natDigits n) : d < 10 := by
  unfold natDigits at hd
  by_cases h : n = 0
  · rw [if_pos h] at hd; simp at hd; omega
  · rw [if_neg h] at hd; exact natDigitsAux_lt n n d hd

theorem digChar_inj (a b : Nat) (ha : a < 10) (hb : b < 10)
    (h : digChar a = digChar b) : a = b := by
  interval_cases a <;> interval_cases b <;> revert h <;> decide

theorem digChar_ne_dash (d : Nat) (hd : d < 10) : digChar d ≠ '-' := by
  interval_cases d <;> decide

theorem map_digChar_inj : ∀ (l1 l2 : List Nat), (∀ d ∈ l1, d < 10) → (∀ d ∈ l2, d < 10) →
    l1.map digChar = l2.map digChar → l1 = l2 := by
  intro l1
  induction l1 with
  | nil => intro l2 _ _ h; cases l2 <;> simp_all
  | cons a t ih =>
    intro l2 h1 h2 h
    cases l2 with
    | nil => simp_all
    | cons b t2 =>
      simp only [List.map_cons, List.cons.injEq] at h
      have hab : a = b := digChar_inj a b (h1 a (by simp)) (h2 b (by simp)) h.1
      subst hab
      have ht : t = t2 :=
        ih t2 (fun d hd => h1 d (by simp [hd])) (fun d hd => h2 d (by simp [hd])) h.2
      rw [ht]

theorem natRepr_injective (a b : Nat) (h : natRepr a = natRepr b) : a = b := by
  unfold natRepr at h
  have hdata : (natDigits a).map digChar = (natDigits b).map digChar :=
    congrArg String.data h
  exact natDigits_injective a b
    (map_digChar_inj _ _ (fun d hd => natDigits_lt a d hd)
      (fun d hd => natDigits_lt b d hd) hdata)

theorem natDigits_ne_nil (n : Nat) : natDigits n ≠ [] := by
  unfold natDigits
  by_cases h : n = 0
  · simp [h]
  · rw [if_neg h]
    obtain ⟨m, hm⟩ := Nat.exists_eq_succ_of_ne_zero h
    rw [hm]
    simp only [natDigitsAux]
    rw [if_neg (by omega : ¬ (m + 1 = 0))]
    simp

theorem natRepr_data (n : Nat) : (natRepr n).data = (natDigits n).map digChar := rfl

theorem natRepr_head_ne_dash (n : Nat) :
    ∀ c cs, (natRepr n).data = c :: cs → c ≠ '-' := by
  intro c cs h
  have h2 : (natDigits n).map digChar = c :: cs := h
  cases hd : natDigits n with
  | nil => exact absurd hd (natDigits_ne_nil n)
  | cons d ds =>
    rw [hd] at h2
    simp only [List.map_cons, List.cons.injEq] at h2
    rw [← h2.1]
    exact digChar_ne_dash d (natDigits_lt n d (by rw [hd]; simp))

theorem natRepr_data_injective (a b : Nat)
    (h : (natRepr a).data = (natRepr b).data) : a = b := by
  rw [natRepr_data, natRepr_data] at h
  exact natDigits_injective a b
    (map_digChar_inj _ _ (fun d hd => natDigits_lt a d hd)
      (fun d hd => natDigits_lt b d hd) h)

theorem intRepr_injective (a b : Int) (h : intRepr a = intRepr b) : a = b := by
  unfold intRepr at h
  by_cases ha : a < 0 <;> by_cases hb : b < 0
  · rw [if_pos ha, if_pos hb] at h
    have hdata := congrArg String.data h
    simp only [String.data_append, List.cons_append, List.nil_append,
      List.cons.injEq, true_and] at hdata
    have := natRepr_data_injective _ _ hdata
    omega
  · rw [if_pos ha, if_neg hb] at h
    exfalso
    have hdata := congrArg String.data h
    simp only [String.data_append, List.cons_append, List.nil_append] at hdata
    exact natRepr_head_ne_dash b.toNat '-' _ hdata.symm rfl
  · rw [if_neg ha, if_pos hb] at h
    exfalso
    have hdata := congrArg String.data h
    simp only [String.data_append, List.cons_append, List.nil_append] at hdata
    exact natRepr_head_ne_dash a.toNat '-' _ hdata rfl
  · rw [if_neg ha, if_neg hb] at h
    have := natRepr_data_injective _ _ (congrArg String.data h)
    omega

/-! ### Calendar arithmetic (civil date ↔ days since epoch) -/

def daysFromCivil (y : Int) (m d : Nat) : Int :=
  let yr : Int := if m ≤ 2 then y - 1 else y
  let era : Int := Int.fdiv yr 400
  let yoe : Int := yr - era * 400
  let mp : Int := if m > 2 then (m : Int) - 3 else (m : Int) + 9
  let doy : Int := Int.fdiv (153 * mp + 2) 5 + (d : Int) - 1
  let doe : Int := yoe * 365 + Int.fdiv yoe 4 - Int.fdiv yoe 100 + doy
  era * 146097 + doe - 719468

def civilFromDays (z0 : Int) : Int × Nat × Nat :=
  let z : Int := z0 + 719468
  let era : Int := Int.fdiv z 146097
  let doe : Nat := (z - era * 146097).toNat
  let yoe : Nat := (doe - doe / 1460 + doe / 36524 - doe / 146096) / 365
  let doy : Nat := doe - (365 * yoe + yoe / 4 - yoe / 100)
  let mp : Nat := (5 * doy + 2) / 153
  let d : Nat := doy - (153 * mp + 2) / 5 + 1
  let m : Nat := if mp < 10 then mp + 3 else mp - 9
  ((if m ≤ 2 then (yoe : Int) + era * 400 + 1 else (yoe : Int) + era * 400), m, d)

/-! ### `new Date(string)` — the ECMAScript Date Time String Format.

Out-of-range days up to the grammar bound 31 roll over arithmetically, as V8
does; a date-time without an offset is read as UTC (host timezone assumed UTC).
-/

def isDigitC (c : Char) : Bool := decide (48 ≤ c.toNat ∧ c.toNat ≤ 57)

def digitVal (c : Char) : Nat := c.toNat - 48

def parseDigitsAux : Nat → Nat → List Char → Option (Nat × List Char)
  | 0, acc, cs => some (acc, cs)
  | k+1, acc, cs =>
    match cs with
    | [] => none
    | c :: rest =>
      if isDigitC c then parseDigitsAux k (acc * 10 + digitVal c) rest else none

def parseDigits (k : Nat) (cs : List Char) : Option (Nat × List Char) :=
  parseDigitsAux k 0 cs

def parseOffset : List Char → Option Int
  | [] => some 0
  | ['Z'] => some 0
  | c :: r =>
    if c = '+' ∨ c = '-' then
      match parseDigits 2 r with
      | some (oh, ':' :: r2) =>
        match parseDigits 2 r2 with
        | some (om, []) =>
          if oh ≤ 23 ∧ om ≤ 59 then
            some ((if c = '+' then 1 else -1) * ((oh : Int) * 3600000 + (om : Int) * 60000))
          else none
        | _ => none
      | _ => none
    else none

def parseTimeMs : List Char → Option Int
  | cs =>
    match parseDigits 2 cs with
    | some (h, ':' :: r1) =>
      match parseDigits 2 r1 with
      | some (mi, r2) =>
        let cont := fun (ss ms : Nat) (rest : List Char) =>
          if h ≤ 24 ∧ mi ≤ 59 ∧ ss ≤ 59 then
            match parseOffset rest with
            | some off =>
              some ((h : Int) * 3600000 + (mi : Int) * 60000 + (ss : Int) * 1000 + (ms : Int) - off)
            | none => none
          else none
        match r2 with
        | ':' :: r3 =>
          match parseDigits 2 r3 with
          | some (ss, '.' :: r4) =>
            match parseDigits 3 r4 with
            | some (ms, r5) => cont ss ms r5
            | none => none
          | some (ss, r4) => cont ss 0 r4
          | none => none
        | _ => cont 0 0 r2
      | none => none
    | _ => none

def jsDateParse (s : String) : Option Int :=
  match parseDigits 4 s.data with
  | none => none
  | some (y, rest) =>
    match rest with
    | [] => some (daysFromCivil (y : Int) 1 1 * 86400000)
    | '-' :: r1 =>
      match parseDigits 2 r1 with
      | none => none
      | some (m, r2) =>
        if m < 1 ∨ 12 < m then none
        else
          match r2 with
          | [] => some (daysFromCivil (y : Int) m 1 * 86400000)
          | '-' :: r3 =>
            match parseDigits 2 r3 with
            | none => none
            | some (d, r4) =>
              if d < 1 ∨ 31 < d then none
              else
                match r4 with
                | [] => some (daysFromCivil (y : Int) m d * 86400000)
                | 'T' :: r5 =>
                  match parseTimeMs r5 with
                  | some ms => some (daysFromCivil (y : Int) m d * 86400000 + ms)
                  | none => none
                | _ => none
          | _ => none
    | _ => none

/-! ### `Date.prototype.toISOString().split('T')[0]` -/

def padZeros (s : String) (w : Nat) : String :=
  if s.length < w then String.mk (List.replicate (w - s.length) '0') ++ s else s

def pad2 (n : Nat) : String := if n < 10 then "0" ++ natRepr n else natRepr n

def isoDateOf (t : Int) : String :=
  let day := Int.fdiv t 86400000
  let c := civilFromDays day
  (if c.1 < 0 then "-" ++ padZeros (natRepr (-c.1).toNat) 6
   else if 9999 < c.1 then "+" ++ padZeros (natRepr c.1.toNat) 6
   else padZeros (natRepr c.1.toNat) 4)
  ++ "-" ++ pad2 c.2.1 ++ "-" ++ pad2 c.2.2

example : jsDateParse "2023-07-04" = some 1688428800000 := by decide
example : jsDateParse "2023-07-04T00:00:00Z" = some 1688428800000 := by decide
example : jsDateParse "2024-03-05T09:30:15+09:00" = some 1709598615000 := by decide
example : jsDateParse "2023-13-01" = none := by decide
example : jsDateParse "2023年7月4日" = none := by decide
example : isoDateOf 1688428800000 = "2023-07-04" := by decide
example : isoDateOf 1688472000000 = "2023-07-04" := by decide

/-! ### JavaScript string helpers: `trim`, and the two regexes of the scraper -/

def jsWs (c : Char) : Bool :=
  c = ' ' || c = '\t' || c = '\n' || c = '\r' ||
  c.toNat = 11 || c.toNat = 12 || c.toNat = 160 || c.toNat = 0x3000 ||
  c.toNat = 0xFEFF || c.toNat = 0x2028 || c.toNat = 0x2029

def trimList (cs : List Char) : List Char :=
  ((cs.dropWhile jsWs).reverse.dropWhile jsWs).reverse

def jsTrim (s : String) : String := String.mk (trimList s.data)

def countWhile (p : Char → Bool) : List Char → Nat
  | [] => 0
  | c :: r => if p c then countWhile p r + 1 else 0

def tryLens {α : Type} (f : Nat → Option α) : Nat → Option α
  | 0 => none
  | n+1 =>
    match f (n+1) with
    | some r => some r
    | none => tryLens f n

def tryLens0 {α : Type} (f : Nat → Option α) (n : Nat) : Option α :=
  match tryLens f n with
  | some r => some r
  | none => f 0

def searchAux {α : Type} (f : List Char → Option α) : List Char → Option α
  | [] => f []
  | c :: rest =>
    match f (c :: rest) with
    | some r => some r
    | none => searchAux f rest

def stripPrefixChars : List Char → List Char → Option (List Char)
  | [], cs => some cs
  | _ :: _, [] => none
  | p :: ps, c :: cs => if c = p then stripPrefixChars ps cs else none

/-- The regex `/(\d{4})[^\d]+(\d{1,2})[^\d]+(\d{1,2})/` tried at one position,
with the greedy/backtracking preferences of the JavaScript engine. -/
def matchDateAt (cs : List Char) : Option (String × String × String) :=
  match cs with
  | c1 :: c2 :: c3 :: c4 :: rest =>
    if isDigitC c1 && isDigitC c2 && isDigitC c3 && isDigitC c4 then
      let g1 := String.mk [c1, c2, c3, c4]
      let grp3 := fun (r : List Char) =>
        match r with
        | a :: b :: _ =>
          if isDigitC a && isDigitC b then some (String.mk [a, b])
          else if isDigitC a then some (String.mk [a]) else none
        | [a] => if isDigitC a then some (String.mk [a]) else none
        | [] => none
      let afterGrp2 := fun (g2 : String) (r : List Char) =>
        let k2 := countWhile (fun c => !isDigitC c) r
        if k2 = 0 then none
        else
          match grp3 (r.drop k2) with
          | some g3 => some (g1, g2, g3)
          | none => none
      let k1 := countWhile (fun c => !isDigitC c) rest
      if k1 = 0 then none
      else
        match rest.drop k1 with
        | a :: b :: r3 =>
          if isDigitC a && isDigitC b then
            match afterGrp2 (String.mk [a, b]) r3 with
            | some res => some res
            | none => if isDigitC a then afterGrp2 (String.mk [a]) (b :: r3) else none
          else if isDigitC a then afterGrp2 (String.mk [a]) (b :: r3)
          else none
        | [a] => if isDigitC a then afterGrp2 (String.mk [a]) [] else none
        | [] => none
    else none
  | _ => none

def dateTripleMatch (s : String) : Option (String × String × String) :=
  searchAux matchDateAt s.data

def introPunct (c : Char) : Bool :=
  c = '。' || c = '、' || c = '.' || c = '!' || c = '！'

/-- The part `([^。]+部の([^\s。]+))です` of the author-greeting regex, tried
after the optional punctuation and whitespace; returns capture group 2. -/
def matchIntroTail (r : List Char) : Option String :=
  let maxA := countWhile (fun c => c ≠ '。') r
  tryLens (fun a =>
    match stripPrefixChars ['部', 'の'] (r.drop a) with
    | none => none
    | some r2 =>
      let maxB := countWhile (fun c => !jsWs c && c ≠ '。') r2
      tryLens (fun b =>
        match stripPrefixChars ['で', 'す'] (r2.drop b) with
        | none => none
        | some _ => some (String.mk (r2.take b))) maxB) maxA

/-- The regex `/こんにちは[。、\.!！]?\s*([^。]+部の([^\s。]+))です/` tried at one
position; returns capture group 2. -/
def matchIntroAt (cs : List Char) : Option String :=
  match stripPrefixChars "こんにちは".data cs with
  | none => none
  | some r0 =>
    let afterPunct := fun (r : List Char) =>
      let maxW := countWhile jsWs r
      tryLens0 (fun w => matchIntroTail (r.drop w)) maxW
    match r0 with
    | c :: r1 =>
      if introPunct c then
        match afterPunct r1 with
        | some res => some res
        | none => afterPunct r0
      else afterPunct r0
    | [] => afterPunct r0

def introAuthorMatch (s : String) : Option String :=
  searchAux matchIntroAt s.data

example : dateTripleMatch "2023年7月4日" = some ("2023", "7", "4") := by decide
example : dateTripleMatch " 更新: 2023-12-31 " = some ("2023", "12", "31") := by decide
example : dateTripleMatch "20231丁2023年7月4日" = some ("2023", "7", "4") := by decide
example : dateTripleMatch "hello" = none := by decide
example : introAuthorMatch "こんにちは。開発部の田中です。最近は" = some "田中" := by decide
example : introAuthorMatch "こんにちは 部の田中です" = some "田中" := by decide
example : introAuthorMatch "こんにちは、A部のB部の田中です" = some "田中" := by decide
example : introAuthorMatch "よろしく" = none := by decide

/-! ### Data model of `tecotecBlogScraperTool` -/

structure Article where
  title : String
  url : String
  date : String
  author : String
  authorFromIntro : String
  authorFromData : String
  summary : String
  categories : List String
deriving DecidableEq

/-- One `.archive-entry` node, as the record of raw values the scraper reads
from it: `text()` of an absent element is `""`, `attr(...)` of an absent
attribute is `undefined`, i.e. `none`. -/
structure Entry where
  titleText : String
  href : Option String
  datetimeAttr : Option String
  dateContent : String
  authorText : String
  dataUserName : Option String
  description : String
  tagLabels : List String
deriving DecidableEq

structure Page where
  entries : List Entry
  nextHref : Option String
deriving DecidableEq

inductive FetchResult where
  | err : FetchResult
  | ok : Nat → Page → FetchResult

/-- `hasNextPage = !!$('.pager-next a').attr('href')`: `undefined` and `""`
are falsy. -/
def pageHasNext (p : Page) : Bool :=
  match p.nextHref with
  | none => false
  | some s => s != ""

/-- The fallback when the `datetime` attribute is falsy: extract a
year/month/day triple from the element's text and zero-pad with
`padStart(2, '0')`. -/
def entryDateFallback (en : Entry) : Option String :=
  match dateTripleMatch (jsTrim en.dateContent) with
  | some (g1, g2, g3) => some (g1 ++ "-" ++ padZeros g2 2 ++ "-" ++ padZeros g3 2)
  | none => none

/-- The final truthy value of `dateText`, if any. -/
def entryDateText (en : Entry) : Option String :=
  match en.datetimeAttr with
  | some s => if s = "" then entryDateFallback en else some s
  | none => entryDateFallback en

def entryAuthorFromEntry (en : Entry) : String := jsTrim en.authorText

def entryAuthorFromData (en : Entry) : String := (en.dataUserName).getD ""

def entrySummary (en : Entry) : String := jsTrim en.description

def entryAuthorFromIntro (en : Entry) : String :=
  match introAuthorMatch (entrySummary en) with
  | some g2 => g2
  | none => ""

def defaultAuthor : String := "テコテック"

/-- JavaScript `a || b` on strings: `""` is falsy. -/
def jsOrStr (a b : String) : String := if a = "" then b else a

/-- `authorFromEntry || authorFromData || authorFromIntro || 'テコテック'`. -/
def resolveAuthor (en : Entry) : String :=
  jsOrStr (entryAuthorFromEntry en)
    (jsOrStr (entryAuthorFromData en)
      (jsOrStr (entryAuthorFromIntro en) defaultAuthor))

def mkArticle (en : Entry) (t : Int) : Article :=
  { title := jsTrim en.titleText
    url := (en.href).getD ""
    date := isoDateOf t
    author := resolveAuthor en
    authorFromIntro := entryAuthorFromIntro en
    authorFromData := entryAuthorFromData en
    summary := jsOrStr (entrySummary en) (jsTrim en.titleText ++ "...")
    categories := en.tagLabels.map jsTrim }

/-- `articleDate >= startDateObj && articleDate <= endDateObj`; a `NaN` bound
makes both comparisons false. -/
def inWindow (s e : Option Int) (t : Int) : Bool :=
  match s, e with
  | some sv, some ev => decide (sv ≤ t) && decide (t ≤ ev)
  | _, _ => false

/-- `articles.some(article => article.url === url)`: a string is never
strictly equal to `undefined`, so an absent `href` is never a duplicate. -/
def isDuplicate (acc : List Article) (href : Option String) : Bool :=
  match href with
  | none => false
  | some u => acc.any (fun a => a.url == u)

/-- One extraction step for one entry. A falsy `dateText` silently skips the
entry; a truthy but unparseable `dateText` gives an Invalid Date, and the
`articleDate.toISOString()` call in the debug log throws `RangeError` before
the window check — modelled as `none`. -/
def processEntry (s e : Option Int) (acc : List Article) (en : Entry) :
    Option (List Article) :=
  match entryDateText en with
  | none => some acc
  | some dt =>
    match jsDateParse dt with
    | none => none
    | some t =>
      if inWindow s e t then
        if isDuplicate acc en.href then some acc
        else some (acc ++ [mkArticle en t])
      else some acc

/-- `entries.each(...)`: entries are processed left to right; a `RangeError`
thrown by one entry stops the iteration — the records pushed by earlier
entries stay in the shared array — and the boolean records that an exception
escaped `.each`. -/
def processEntries (s e : Option Int) (acc : List Article) :
    List Entry → List Article × Bool
  | [] => (acc, false)
  | en :: rest =>
    match processEntry s e acc en with
    | none => (acc, true)
    | some acc2 => processEntries s e acc2 rest

/-! ### The paginated crawler -/

def blogUrl : String := "https://tec.tecotec.co.jp/"

def pageUrlOf (base : String) (n : Nat) : String :=
  if n = 1 then base else base ++ "?page=" ++ natRepr n

/-- The `while (hasNextPage && currentPage <= maxPages)` loop for one base
URL, with `fuel = maxPages - currentPage + 1` remaining allowed pages.
Returns the accumulated articles and the list of page URLs fetched. An
exception escaping `entries.each` (the line-169 `RangeError`) is caught by
the page-level `catch`, which sets `hasNextPage = false`: the records pushed
so far are kept and this base URL's crawl ends before the pager check. -/
def crawlGo (world : String → FetchResult) (s e : Option Int) (base : String) :
    Nat → Nat → List Article → List Article × List String
  | _, 0, acc => (acc, [])
  | page, fuel+1, acc =>
    let url := pageUrlOf base page
    match world url with
    | FetchResult.err => (acc, [url])
    | FetchResult.ok status pg =>
      if status ≠ 200 then (acc, [url])
      else if pg.entries = [] then (acc, [url])
      else
        match processEntries s e acc pg.entries with
        | (acc2, true) => (acc2, [url])
        | (acc2, false) =>
          if pageHasNext pg then
            let r := crawlGo world s e base (page+1) fuel acc2
            (r.1, url :: r.2)
          else (acc2, [url])

def crawlBase (world : String → FetchResult) (s e : Option Int) (maxPages : Nat)
    (base : String) (acc : List Article) : List Article × List String :=
  crawlGo world s e base 1 maxPages acc

def crawlBases (world : String → FetchResult) (s e : Option Int) (maxPages : Nat) :
    List String → List Article → List Article × List String
  | [], acc => (acc, [])
  | u :: rest, acc =>
    let r := crawlBase world s e maxPages u acc
    let r2 := crawlBases world s e maxPages rest r.1
    (r2.1, r.2 ++ r2.2)

/-! ### Source enumeration -/

/-- `Date.prototype.getFullYear()`, host timezone taken as UTC. -/
def yearOfTs (t : Int) : Int := (civilFromDays (Int.fdiv t 86400000)).1

def yearRange (a b : Int) : List Int :=
  if a ≤ b then (List.range (b - a + 1).toNat).map (fun (i : Nat) => a + (i : Int)) else []

/-- The `for (let year = start.getFullYear(); year <= end.getFullYear(); ...)`
loop; a `NaN` bound fails the guard immediately. -/
def yearsFor (s e : Option Int) : List Int :=
  match s, e with
  | some sv, some ev => yearRange (yearOfTs sv) (yearOfTs ev)
  | _, _ => []

def archiveUrlOf (y : Int) : String := blogUrl ++ "archive/" ++ intRepr y

def urlsToCheck (s e : Option Int) : List String :=
  (yearsFor s e).map archiveUrlOf ++ [blogUrl]

/-! ### The final stable sort (`Array.prototype.sort`, which is stable;
a `NaN` comparator value counts as a tie) -/

def keepBefore {α : Type} (key : α → Option Int) (b a : α) : Bool :=
  match key b, key a with
  | some kb, some ka => decide (ka ≤ kb)
  | _, _ => true

def sIns {α : Type} (key : α → Option Int) (a : α) : List α → List α
  | [] => [a]
  | b :: bs => if keepBefore key b a then b :: sIns key a bs else a :: b :: bs

def stableSortDesc {α : Type} (key : α → Option Int) (l : List α) : List α :=
  l.foldl (fun acc a => sIns key a acc) []

def articleDateKey (a : Article) : Option Int := jsDateParse a.date

def sortArticles (l : List Article) : List Article := stableSortDesc articleDateKey l

/-! ### The whole tool invocation -/

structure ScrapeResult where
  articles : List Article
  totalCount : Nat
  period : String × String
deriving DecidableEq

def tecotecBlogScraper (world : String → FetchResult) (startDate endDate : String)
    (maxPages : Nat) : ScrapeResult :=
  let startObj := jsDateParse startDate
  let endObj := jsDateParse endDate
  let res := crawlBases world startObj endObj maxPages (urlsToCheck startObj endObj) []
  let sorted := sortArticles res.1
  { articles := sorted, totalCount := sorted.length, period := (startDate, endDate) }

def scrapeFetchLog (world : String → FetchResult) (startDate endDate : String)
    (maxPages : Nat) : List String :=
  (crawlBases world (jsDateParse startDate) (jsDateParse endDate) maxPages
    (urlsToCheck (jsDateParse startDate) (jsDateParse endDate)) []).2

example :
    urlsToCheck (jsDateParse "2022-03-01") (jsDateParse "2023-01-15")
      = ["https://tec.tecotec.co.jp/archive/2022",
         "https://tec.tecotec.co.jp/archive/2023",
         "https://tec.tecotec.co.jp/"] := by decide

/-! ### Data model of `formatBlogListTool` -/

structure FArticle where
  title : String
  url : String
  date : String
  author : Option String
  summary : Option String
  categories : Option (List String)
deriving DecidableEq

inductive BlogFormat where
  | markdown | html | csv | json
deriving DecidableEq

inductive FormatOutput where
  | markdown : String → FormatOutput
  | html : String → FormatOutput
  | csv : String → FormatOutput
  | json : String → FormatOutput
deriving DecidableEq

def fArticleDateKey (a : FArticle) : Option Int := jsDateParse a.date

def sortFArticles (l : List FArticle) : List FArticle :=
  stableSortDesc fArticleDateKey l

/-- JavaScript `x || 'N/A'` on an optional string. -/
def orNA (o : Option String) : String :=
  match o with
  | some s => if s = "" then "N/A" else s
  | none => "N/A"

def mdHeader (ic is : Bool) : String :=
  "| 日付 | タイトル | 著者 " ++ (if ic then "| カテゴリ " else "")
    ++ (if is then "| 概要 " else "") ++ "|\n"
    ++ "|------|---------|------|" ++ (if ic then "------|" else "")
    ++ (if is then "------|" else "") ++ "\n"

def mdCats (o : Option (List String)) : String :=
  match o with
  | some l => if l.length > 0 then String.intercalate ", " l else "N/A"
  | none => "N/A"

def mdRow (a : FArticle) (ic is : Bool) : String :=
  "| " ++ a.date ++ " | [" ++ a.title ++ "](" ++ a.url ++ ") | "
    ++ orNA a.author ++ " "
    ++ (if ic then "| " ++ mdCats a.categories ++ " " else "")
    ++ (if is then "| " ++ orNA a.summary ++ " " else "")
    ++ "|\n"

def formatMarkdown (articles : List FArticle) (ic is : Bool) : String :=
  "# テコテックブログ 記事一覧\n\n" ++ mdHeader ic is
    ++ String.join (articles.map (fun a => mdRow a ic is))

def htmlHeader (ic is : Bool) : String :=
  "\n    <html>\n    <head>\n      <title>テコテックブログ 記事一覧</title>\n      <style>\n        table \x7b border-collapse: collapse; width: 100%; \x7d\n        th, td \x7b padding: 8px; text-align: left; border-bottom: 1px solid #ddd; \x7d\n        tr:hover \x7b background-color: #f5f5f5; \x7d\n      </style>\n    </head>\n    <body>\n      <h1>テコテックブログ 記事一覧</h1>\n      <table>\n        <thead>\n          <tr>\n            <th>日付</th>\n            <th>タイトル</th>\n            <th>著者</th>\n            "
    ++ (if ic then "<th>カテゴリ</th>" else "") ++ "\n            "
    ++ (if is then "<th>概要</th>" else "")
    ++ "\n          </tr>\n        </thead>\n        <tbody>\n  "

def htmlCats (o : Option (List String)) : String :=
  jsOrStr (String.intercalate ", " (o.getD [])) "N/A"

def htmlRow (a : FArticle) (ic is : Bool) : String :=
  "\n      <tr>\n        <td>" ++ a.date ++ "</td>\n        <td><a href=\""
    ++ a.url ++ "\" target=\"_blank\">" ++ a.title
    ++ "</a></td>\n        <td>" ++ orNA a.author ++ "</td>\n        "
    ++ (if ic then "<td>" ++ htmlCats a.categories ++ "</td>" else "")
    ++ "\n        "
    ++ (if is then "<td>" ++ orNA a.summary ++ "</td>" else "")
    ++ "\n      </tr>\n    "

def htmlFooter : String :=
  "\n        </tbody>\n      </table>\n    </body>\n    </html>\n  "

def formatHtml (articles : List FArticle) (ic is : Bool) : String :=
  htmlHeader ic is ++ String.join (articles.map (fun a => htmlRow a ic is))
    ++ htmlFooter

def escapeCsv (s : String) : String :=
  if s = "" then ""
  else "\"" ++ String.mk (s.data.foldr
    (fun c acc => if c = '"' then '"' :: '"' :: acc else c :: acc) []) ++ "\""

def csvHeader (ic is : Bool) : String :=
  "日付,タイトル,URL,著者" ++ (if ic then ",カテゴリ" else "")
    ++ (if is then ",概要" else "") ++ "\n"

def csvCats (o : Option (List String)) : String :=
  match o with
  | some l => if l.length > 0 then String.intercalate "; " l else ""
  | none => ""

def csvRow (a : FArticle) (ic is : Bool) : String :=
  a.date ++ "," ++ escapeCsv a.title ++ "," ++ a.url ++ ","
    ++ escapeCsv (a.author.getD "")
    ++ (if ic then "," ++ escapeCsv (csvCats a.categories) else "")
    ++ (if is then "," ++ escapeCsv (a.summary.getD "") else "")
    ++ "\n"

def formatCsv (articles : List FArticle) (ic is : Bool) : String :=
  csvHeader ic is ++ String.join (articles.map (fun a => csvRow a ic is))

def hexChar (n : Nat) : Char :=
  match n with
  | 10 => 'a' | 11 => 'b' | 12 => 'c' | 13 => 'd' | 14 => 'e' | 15 => 'f'
  | _ => digChar n

def jsonEscape (s : String) : String :=
  String.mk (s.data.foldr (fun c acc =>
    if c = '"' then '\\' :: '"' :: acc
    else if c = '\\' then '\\' :: '\\' :: acc
    else if c = '\n' then '\\' :: 'n' :: acc
    else if c = '\r' then '\\' :: 'r' :: acc
    else if c = '\t' then '\\' :: 't' :: acc
    else if c.toNat = 8 then '\\' :: 'b' :: acc
    else if c.toNat = 12 then '\\' :: 'f' :: acc
    else if c.toNat < 32 then
      '\\' :: 'u' :: '0' :: '0' :: hexChar (c.toNat / 16) :: hexChar (c.toNat % 16) :: acc
    else c :: acc) [])

def jsonStr (s : String) : String := "\"" ++ jsonEscape s ++ "\""

def jsonCatsArr (l : List String) : String :=
  match l with
  | [] => "[]"
  | _ => "[\n" ++ String.intercalate ",\n" (l.map (fun s => "      " ++ jsonStr s))
          ++ "\n    ]"

/-- `JSON.stringify` of one article at nesting depth 1 with gap 2:
properties in insertion order, `undefined` properties omitted. -/
def jsonFArticle (a : FArticle) : String :=
  let fields :=
    ["\"title\": " ++ jsonStr a.title,
     "\"url\": " ++ jsonStr a.url,
     "\"date\": " ++ jsonStr a.date]
    ++ (match a.author with | some s => ["\"author\": " ++ jsonStr s] | none => [])
    ++ (match a.summary with | some s => ["\"summary\": " ++ jsonStr s] | none => [])
    ++ (match a.categories with | some l => ["\"categories\": " ++ jsonCatsArr l] | none => [])
  "\x7b\n" ++ String.intercalate ",\n" (fields.map (fun f => "    " ++ f)) ++ "\n  \x7d"

def jsonStringifyFArticles (l : List FArticle) : String :=
  match l with
  | [] => "[]"
  | _ => "[\n" ++ String.intercalate ",\n" (l.map (fun a => "  " ++ jsonFArticle a))
          ++ "\n]"

def formatBlogList (articles : List FArticle) (format : BlogFormat) (ic is : Bool) :
    FormatOutput :=
  let sorted := sortFArticles articles
  match format with
  | BlogFormat.markdown => FormatOutput.markdown (formatMarkdown sorted ic is)
  | BlogFormat.html => FormatOutput.html (formatHtml sorted ic is)
  | BlogFormat.csv => FormatOutput.csv (formatCsv sorted ic is)
  | BlogFormat.json => FormatOutput.json (jsonStringifyFArticles sorted)

/-! ### Lemmas about the stable sort -/

theorem keepBefore_false {α : Type} (key : α → Option Int) (b a : α)
    (h : keepBefore key b a = false) :
    ∃ kb ka, key b = some kb ∧ key a = some ka ∧ kb < ka := by
  cases hb : key b with
  | none => simp [keepBefore, hb] at h
  | some kb =>
    cases ha : key a with
    | none => simp [keepBefore, hb, ha] at h
    | some ka =>
      simp only [keepBefore, hb, ha, decide_eq_false_iff_not, not_le] at h
      exact ⟨kb, ka, rfl, rfl, h⟩

theorem sIns_perm {α : Type} (key : α → Option Int) (a : α) :
    ∀ l : List α, (sIns key a l).Perm (a :: l) := by
  intro l
  induction l with
  | nil => simp [sIns]
  | cons b bs ih =>
    unfold sIns
    by_cases h : keepBefore key b a = true
    · rw [if_pos h]
      exact (ih.cons b).trans (List.Perm.swap a b bs)
    · rw [if_neg h]

theorem stableSortFold_perm {α : Type} (key : α → Option Int) :
    ∀ (l acc : List α),
      (List.foldl (fun acc a => sIns key a acc) acc l).Perm (l ++ acc) := by
  intro l
  induction l with
  | nil => intro acc; simp
  | cons x xs ih =>
    intro acc
    simp only [List.foldl_cons, List.cons_append]
    exact (ih (sIns key x acc)).trans
      ((List.Perm.append_left xs (sIns_perm key x acc)).trans List.perm_middle)

theorem stableSortDesc_perm {α : Type} (key : α → Option Int) (l : List α) :
    (stableSortDesc key l).Perm l := by
  have h := stableSortFold_perm key l []
  simpa [stableSortDesc] using h

theorem sIns_pairwise {α : Type} (key : α → Option Int) (a : α) :
    ∀ l : List α, l.Pairwise (fun x y => keepBefore key x y = true) →
      (sIns key a l).Pairwise (fun x y => keepBefore key x y = true) := by
  intro l
  induction l with
  | nil => intro _; simp [sIns]
  | cons b bs ih =>
    intro hp
    rw [List.pairwise_cons] at hp
    obtain ⟨hb, hbs⟩ := hp
    unfold sIns
    by_cases h : keepBefore key b a = true
    · rw [if_pos h, List.pairwise_cons]
      refine ⟨?_, ih hbs⟩
      intro x hx
      rcases List.mem_cons.mp ((sIns_perm key a bs).mem_iff.mp hx) with h1 | h1
      · rw [h1]; exact h
      · exact hb x h1
    · rw [if_neg h]
      have hf : keepBefore key b a = false := by
        cases hkb : keepBefore key b a
        · rfl
        · exact absurd hkb h
      obtain ⟨kb, ka, hkb, hka, hlt⟩ := keepBefore_false key b a hf
      rw [List.pairwise_cons]
      refine ⟨?_, List.pairwise_cons.mpr ⟨hb, hbs⟩⟩
      intro x hx
      rcases List.mem_cons.mp hx with h1 | h1
      · rw [h1]
        simp only [keepBefore, hka, hkb, decide_eq_true_eq]
        omega
      · have hbx := hb x h1
        cases hkx : key x with
        | none => simp [keepBefore, hka, hkx]
        | some kx =>
          have hle : kx ≤ kb := by
            simpa [keepBefore, hkb, hkx] using hbx
          simp only [keepBefore, hka, hkx, decide_eq_true_eq]
          omega

theorem stableSortFold_pairwise {α : Type} (key : α → Option Int) :
    ∀ (l acc : List α), acc.Pairwise (fun x y => keepBefore key x y = true) →
      (List.foldl (fun acc a => sIns key a acc) acc l).Pairwise
        (fun x y => keepBefore key x y = true) := by
  intro l
  induction l with
  | nil => intro acc h; simpa using h
  | cons x xs ih =>
    intro acc h
    simp only [List.foldl_cons]
    exact ih (sIns key x acc) (sIns_pairwise key x acc h)

theorem stableSortDesc_pairwise {α : Type} (key : α → Option Int) (l : List α) :
    (stableSortDesc key l).Pairwise (fun x y => keepBefore key x y = true) :=
  stableSortFold_pairwise key l [] (by simp)

theorem sIns_of_all {α : Type} (key : α → Option Int) (a : α) :
    ∀ l : List α, (∀ b ∈ l, keepBefore key b a = true) → sIns key a l = l ++ [a] := by
  intro l
  induction l with
  | nil => intro _; simp [sIns]
  | cons b bs ih =>
    intro h
    unfold sIns
    rw [if_pos (h b (by simp)), ih (fun c hc => h c (by simp [hc]))]
    simp

theorem stableSortFold_fixed {α : Type} (key : α → Option Int) :
    ∀ (l acc : List α), (acc ++ l).Pairwise (fun x y => keepBefore key x y = true) →
      List.foldl (fun acc a => sIns key a acc) acc l = acc ++ l := by
  intro l
  induction l with
  | nil => intro acc _; simp
  | cons x xs ih =>
    intro acc hp
    have hall : ∀ b ∈ acc, keepBefore key b x = true := by
      intro b hbm
      exact (List.pairwise_append.mp hp).2.2 b hbm x (by simp)
    simp only [List.foldl_cons]
    rw [sIns_of_all key x acc hall]
    have hp2 : ((acc ++ [x]) ++ xs).Pairwise (fun x y => keepBefore key x y = true) := by
      simpa [List.append_assoc] using hp
    rw [ih (acc ++ [x]) hp2]
    simp

theorem stableSortDesc_fixed {α : Type} (key : α → Option Int) (l : List α)
    (h : l.Pairwise (fun x y => keepBefore key x y = true)) :
    stableSortDesc key l = l := by
  have := stableSortFold_fixed key l []
  simpa [stableSortDesc] using this (by simpa using h)

theorem stableSortDesc_idem {α : Type} (key : α → Option Int) (l : List α) :
    stableSortDesc key (stableSortDesc key l) = stableSortDesc key l :=
  stableSortDesc_fixed key _ (stableSortDesc_pairwise key l)

theorem sIns_filter {α : Type} (key : α → Option Int) (a : α) (k : Int) :
    ∀ l : List α, l.Pairwise (fun x y => keepBefore key x y = true) →
      (sIns key a l).filter (fun x => decide (key x = some k))
        = l.filter (fun x => decide (key x = some k))
          ++ (if key a = some k then [a] else []) := by
  intro l
  induction l with
  | nil =>
    intro _
    by_cases hk : key a = some k <;> simp [sIns, List.filter, hk]
  | cons b bs ih =>
    intro hp
    rw [List.pairwise_cons] at hp
    obtain ⟨hb, hbs⟩ := hp
    unfold sIns
    by_cases h : keepBefore key b a = true
    · rw [if_pos h]
      by_cases hbk : key b = some k <;>
        simp [List.filter_cons, hbk, ih hbs]
    · rw [if_neg h]
      have hf : keepBefore key b a = false := by
        cases hkb : keepBefore key b a
        · rfl
        · exact absurd hkb h
      obtain ⟨kb, ka, hkb, hka, hlt⟩ := keepBefore_false key b a hf
      by_cases hak : key a = some k
      · have hks : ka = k := by
          rw [hka] at hak
          simpa using hak
        have hnone : ∀ x ∈ b :: bs, ¬ (key x = some k) := by
          intro x hx
          rcases List.mem_cons.mp hx with h1 | h1
          · rw [h1, hkb]
            intro hc
            have hc2 : kb = k := by injection hc
            omega
          · have hbx := hb x h1
            cases hkx : key x with
            | none => simp
            | some kx =>
              have hle : kx ≤ kb := by
                simpa [keepBefore, hkb, hkx] using hbx
              intro hc
              have hc2 : kx = k := by injection hc
              omega
        have hnil : (b :: bs).filter (fun x => decide (key x = some k)) = [] := by
          rw [List.filter_eq_nil_iff]
          intro x hx
          simpa using hnone x hx
        rw [List.filter_cons, hnil]
        simp [hak]
      · rw [List.filter_cons]
        simp [hak]

theorem stableSortFold_filter {α : Type} (key : α → Option Int) (k : Int) :
    ∀ (l acc : List α), acc.Pairwise (fun x y => keepBefore key x y = true) →
      (List.foldl (fun acc a => sIns key a acc) acc l).filter
          (fun x => decide (key x = some k))
        = acc.filter (fun x => decide (key x = some k))
          ++ l.filter (fun x => decide (key x = some k)) := by
  intro l
  induction l with
  | nil => intro acc _; simp
  | cons x xs ih =>
    intro acc hp
    simp only [List.foldl_cons]
    rw [ih (sIns key x acc) (sIns_pairwise key x acc hp),
      sIns_filter key x k acc hp, List.filter_cons]
    by_cases hx : key x = some k <;> simp [hx]

theorem stableSortDesc_filter {α : Type} (key : α → Option Int) (k : Int) (l : List α) :
    (stableSortDesc key l).filter (fun x => decide (key x = some k))
      = l.filter (fun x => decide (key x = some k)) := by
  have h := stableSortFold_filter key k l [] (by simp)
  simpa [stableSortDesc] using h

/-! ### Invariants of the extraction/crawl pipeline -/

/-- A record accepted by the extractor: built by `mkArticle` from some entry
whose resolved timestamp lies in the window. -/
def FromWindow (s e : Option Int) (r : Article) : Prop :=
  ∃ en t, r = mkArticle en t ∧ inWindow s e t = true

theorem crawlGo_zero (world : String → FetchResult) (s e : Option Int) (base : String)
    (page : Nat) (acc : List Article) :
    crawlGo world s e base page 0 acc = (acc, []) := rfl

theorem crawlGo_err (world : String → FetchResult) (s e : Option Int) (base : String)
    (page fuel : Nat) (acc : List Article)
    (h : world (pageUrlOf base page) = FetchResult.err) :
    crawlGo world s e base page (fuel+1) acc = (acc, [pageUrlOf base page]) := by
  conv_lhs => unfold crawlGo
  simp [h]

theorem crawlGo_bad_status (world : String → FetchResult) (s e : Option Int)
    (base : String) (page fuel : Nat) (acc : List Article) (st : Nat) (pg : Page)
    (h : world (pageUrlOf base page) = FetchResult.ok st pg) (hst : st ≠ 200) :
    crawlGo world s e base page (fuel+1) acc = (acc, [pageUrlOf base page]) := by
  conv_lhs => unfold crawlGo
  simp [h, hst]

theorem crawlGo_empty_page (world : String → FetchResult) (s e : Option Int)
    (base : String) (page fuel : Nat) (acc : List Article) (pg : Page)
    (h : world (pageUrlOf base page) = FetchResult.ok 200 pg)
    (hemp : pg.entries = []) :
    crawlGo world s e base page (fuel+1) acc = (acc, [pageUrlOf base page]) := by
  conv_lhs => unfold crawlGo
  simp [h, hemp]

theorem crawlGo_throw (world : String → FetchResult) (s e : Option Int)
    (base : String) (page fuel : Nat) (acc acc2 : List Article) (pg : Page)
    (h : world (pageUrlOf base page) = FetchResult.ok 200 pg)
    (hne : pg.entries ≠ [])
    (hpe : processEntries s e acc pg.entries = (acc2, true)) :
    crawlGo world s e base page (fuel+1) acc = (acc2, [pageUrlOf base page]) := by
  conv_lhs => unfold crawlGo
  simp [h, hne, hpe]

theorem crawlGo_next (world : String → FetchResult) (s e : Option Int)
    (base : String) (page fuel : Nat) (acc acc2 : List Article) (pg : Page)
    (h : world (pageUrlOf base page) = FetchResult.ok 200 pg)
    (hne : pg.entries ≠ [])
    (hpe : processEntries s e acc pg.entries = (acc2, false))
    (hnx : pageHasNext pg = true) :
    crawlGo world s e base page (fuel+1) acc
      = ((crawlGo world s e base (page+1) fuel acc2).1,
         pageUrlOf base page :: (crawlGo world s e base (page+1) fuel acc2).2) := by
  conv_lhs => unfold crawlGo
  simp [h, hne, hpe, hnx]

theorem crawlGo_last (world : String → FetchResult) (s e : Option Int)
    (base : String) (page fuel : Nat) (acc acc2 : List Article) (pg : Page)
    (h : world (pageUrlOf base page) = FetchResult.ok 200 pg)
    (hne : pg.entries ≠ [])
    (hpe : processEntries s e acc pg.entries = (acc2, false))
    (hnx : pageHasNext pg = false) :
    crawlGo world s e base page (fuel+1) acc = (acc2, [pageUrlOf base page]) := by
  conv_lhs => unfold crawlGo
  simp [h, hne, hpe, hnx]

theorem crawlBases_nil (world : String → FetchResult) (s e : Option Int) (mp : Nat)
    (acc : List Article) : crawlBases world s e mp [] acc = (acc, []) := rfl

theorem crawlBases_cons (world : String → FetchResult) (s e : Option Int) (mp : Nat)
    (u : String) (rest : List String) (acc : List Article) :
    crawlBases world s e mp (u :: rest) acc
      = ((crawlBases world s e mp rest (crawlBase world s e mp u acc).1).1,
         (crawlBase world s e mp u acc).2
           ++ (crawlBases world s e mp rest (crawlBase world s e mp u acc).1).2) := rfl

/-! Equation lemmas for one entry of the extractor -/

theorem processEntry_no_date (s e : Option Int) (acc : List Article) (en : Entry)
    (h : entryDateText en = none) : processEntry s e acc en = some acc := by
  unfold processEntry
  rw [h]

/-- A truthy but unparseable `dateText`: `toISOString()` throws `RangeError`. -/
theorem processEntry_nan (s e : Option Int) (acc : List Article) (en : Entry)
    (dt : String) (hdt : entryDateText en = some dt) (hts : jsDateParse dt = none) :
    processEntry s e acc en = none := by
  unfold processEntry
  rw [hdt]
  simp [hts]

theorem processEntry_outside (s e : Option Int) (acc : List Article) (en : Entry)
    (dt : String) (t : Int) (hdt : entryDateText en = some dt)
    (hts : jsDateParse dt = some t) (hw : inWindow s e t = false) :
    processEntry s e acc en = some acc := by
  unfold processEntry
  rw [hdt]
  simp [hts, hw]

theorem processEntry_dup (s e : Option Int) (acc : List Article) (en : Entry)
    (dt : String) (t : Int) (hdt : entryDateText en = some dt)
    (hts : jsDateParse dt = some t) (hw : inWindow s e t = true)
    (hdup : isDuplicate acc en.href = true) :
    processEntry s e acc en = some acc := by
  unfold processEntry
  rw [hdt]
  simp [hts, hw, hdup]

theorem processEntry_add (s e : Option Int) (acc : List Article) (en : Entry)
    (dt : String) (t : Int) (hdt : entryDateText en = some dt)
    (hts : jsDateParse dt = some t) (hw : inWindow s e t = true)
    (hdup : isDuplicate acc en.href = false) :
    processEntry s e acc en = some (acc ++ [mkArticle en t]) := by
  unfold processEntry
  rw [hdt]
  simp [hts, hw, hdup]

theorem processEntries_nil (s e : Option Int) (acc : List Article) :
    processEntries s e acc [] = (acc, false) := rfl

theorem processEntries_cons_ok (s e : Option Int) (acc acc2 : List Article)
    (en : Entry) (rest : List Entry) (h : processEntry s e acc en = some acc2) :
    processEntries s e acc (en :: rest) = processEntries s e acc2 rest := by
  conv_lhs => unfold processEntries
  simp [h]

/-- The `RangeError` escapes `.each`: the entries after the throwing one are
not processed and no record is produced by any of them. -/
theorem processEntries_cons_throw (s e : Option Int) (acc : List Article)
    (en : Entry) (rest : List Entry) (h : processEntry s e acc en = none) :
    processEntries s e acc (en :: rest) = (acc, true) := by
  conv_lhs => unfold processEntries
  simp [h]

theorem processEntry_mem (s e : Option Int) (acc : List Article) (en : Entry) :
    ∀ l, processEntry s e acc en = some l → ∀ r ∈ l, r ∈ acc ∨ FromWindow s e r := by
  intro l hl r hr
  cases hdt : entryDateText en with
  | none =>
    rw [processEntry_no_date s e acc en hdt] at hl
    injection hl with h2
    subst h2
    exact Or.inl hr
  | some dt =>
    cases hts : jsDateParse dt with
    | none =>
      rw [processEntry_nan s e acc en dt hdt hts] at hl
      exact absurd hl (by simp)
    | some t =>
      cases hw : inWindow s e t with
      | false =>
        rw [processEntry_outside s e acc en dt t hdt hts hw] at hl
        injection hl with h2
        subst h2
        exact Or.inl hr
      | true =>
        cases hdup : isDuplicate acc en.href with
        | true =>
          rw [processEntry_dup s e acc en dt t hdt hts hw hdup] at hl
          injection hl with h2
          subst h2
          exact Or.inl hr
        | false =>
          rw [processEntry_add s e acc en dt t hdt hts hw hdup] at hl
          injection hl with h2
          subst h2
          rcases List.mem_append.mp hr with h1 | h1
          · exact Or.inl h1
          · exact Or.inr ⟨en, t, by simpa using h1, hw⟩

theorem processEntries_mem (s e : Option Int) :
    ∀ (l : List Entry) (acc : List Article),
      ∀ r ∈ (processEntries s e acc l).1, r ∈ acc ∨ FromWindow s e r := by
  intro l
  induction l with
  | nil => intro acc r hr; exact Or.inl hr
  | cons x xs ih =>
    intro acc r hr
    cases hpe : processEntry s e acc x with
    | none =>
      rw [processEntries_cons_throw s e acc x xs hpe] at hr
      exact Or.inl hr
    | some acc2 =>
      rw [processEntries_cons_ok s e acc acc2 x xs hpe] at hr
      rcases ih acc2 r hr with h1 | h1
      · exact processEntry_mem s e acc x acc2 hpe r h1
      · exact Or.inr h1

theorem crawlGo_mem (world : String → FetchResult) (s e : Option Int) (base : String) :
    ∀ (fuel page : Nat) (acc : List Article),
      ∀ r ∈ (crawlGo world s e base page fuel acc).1, r ∈ acc ∨ FromWindow s e r := by
  intro fuel
  induction fuel with
  | zero => intro page acc r hr; exact Or.inl hr
  | succ fuel ih =>
    intro page acc r hr
    cases hw : world (pageUrlOf base page) with
    | err =>
      rw [crawlGo_err world s e base page fuel acc hw] at hr
      exact Or.inl hr
    | ok st pg =>
      by_cases hst : st = 200
      · subst hst
        by_cases hemp : pg.entries = []
        · rw [crawlGo_empty_page world s e base page fuel acc pg hw hemp] at hr
          exact Or.inl hr
        · cases hpe : processEntries s e acc pg.entries with
          | mk acc2 thrown =>
            cases thrown with
            | true =>
              rw [crawlGo_throw world s e base page fuel acc acc2 pg hw hemp hpe] at hr
              have hr2 : r ∈ (processEntries s e acc pg.entries).1 := by
                rw [hpe]
                exact hr
              exact processEntries_mem s e pg.entries acc r hr2
            | false =>
              cases hnx : pageHasNext pg with
              | true =>
                rw [crawlGo_next world s e base page fuel acc acc2 pg hw hemp hpe hnx] at hr
                rcases ih (page+1) acc2 r hr with h1 | h1
                · have hr2 : r ∈ (processEntries s e acc pg.entries).1 := by
                    rw [hpe]
                    exact h1
                  exact processEntries_mem s e pg.entries acc r hr2
                · exact Or.inr h1
              | false =>
                rw [crawlGo_last world s e base page fuel acc acc2 pg hw hemp hpe hnx] at hr
                have hr2 : r ∈ (processEntries s e acc pg.entries).1 := by
                  rw [hpe]
                  exact hr
                exact processEntries_mem s e pg.entries acc r hr2
      · rw [crawlGo_bad_status world s e base page fuel acc st pg hw hst] at hr
        exact Or.inl hr

theorem crawlBases_mem (world : String → FetchResult) (s e : Option Int) (mp : Nat) :
    ∀ (bases : List String) (acc : List Article),
      ∀ r ∈ (crawlBases world s e mp bases acc).1, r ∈ acc ∨ FromWindow s e r := by
  intro bases
  induction bases with
  | nil => intro acc r hr; exact Or.inl hr
  | cons u rest ih =>
    intro acc r hr
    rw [crawlBases_cons] at hr
    rcases ih (crawlBase world s e mp u acc).1 r hr with h1 | h1
    · exact crawlGo_mem world s e u mp 1 acc r h1
    · exact Or.inr h1

theorem scraper_mem (world : String → FetchResult) (sd ed : String) (mp : Nat) :
    ∀ r ∈ (tecotecBlogScraper world sd ed mp).articles,
      FromWindow (jsDateParse sd) (jsDateParse ed) r := by
  intro r hr
  have hr2 : r ∈ (crawlBases world (jsDateParse sd) (jsDateParse ed) mp
      (urlsToCheck (jsDateParse sd) (jsDateParse ed)) []).1 := by
    have hperm := stableSortDesc_perm articleDateKey
      (crawlBases world (jsDateParse sd) (jsDateParse ed) mp
        (urlsToCheck (jsDateParse sd) (jsDateParse ed)) []).1
    exact hperm.mem_iff.mp (by simpa [tecotecBlogScraper, sortArticles] using hr)
  rcases crawlBases_mem world (jsDateParse sd) (jsDateParse ed) mp
      (urlsToCheck (jsDateParse sd) (jsDateParse ed)) [] r hr2 with h1 | h1
  · simp at h1
  · exact h1

/-! Deduplication invariant: linked records have pairwise distinct urls -/

def UrlsOk (l : List Article) : Prop :=
  (l.filter (fun a => decide (a.url ≠ ""))).Pairwise (fun a b => a.url ≠ b.url)

theorem processEntry_urlsOk (s e : Option Int) (acc acc2 : List Article) (en : Entry)
    (hl : processEntry s e acc en = some acc2) (h : UrlsOk acc) : UrlsOk acc2 := by
  cases hdt : entryDateText en with
  | none =>
    rw [processEntry_no_date s e acc en hdt] at hl
    injection hl with h2
    subst h2
    exact h
  | some dt =>
    cases hts : jsDateParse dt with
    | none =>
      rw [processEntry_nan s e acc en dt hdt hts] at hl
      exact absurd hl (by simp)
    | some t =>
      cases hw : inWindow s e t with
      | false =>
        rw [processEntry_outside s e acc en dt t hdt hts hw] at hl
        injection hl with h2
        subst h2
        exact h
      | true =>
        cases hdup : isDuplicate acc en.href with
        | true =>
          rw [processEntry_dup s e acc en dt t hdt hts hw hdup] at hl
          injection hl with h2
          subst h2
          exact h
        | false =>
          rw [processEntry_add s e acc en dt t hdt hts hw hdup] at hl
          injection hl with h2
          subst h2
          unfold UrlsOk at h ⊢
          rw [List.filter_append]
          cases hhref : en.href with
          | none =>
            have hurl : (mkArticle en t).url = "" := by
              simp [mkArticle, hhref]
            have hfil : ([mkArticle en t].filter (fun a => decide (a.url ≠ ""))) = [] := by
              simp [List.filter, hurl]
            rw [hfil, List.append_nil]
            exact h
          | some u =>
            have hurl : (mkArticle en t).url = u := by
              simp [mkArticle, hhref]
            by_cases hu : u = ""
            · have hfil : ([mkArticle en t].filter (fun a => decide (a.url ≠ ""))) = [] := by
                simp [List.filter, hurl, hu]
              rw [hfil, List.append_nil]
              exact h
            · have hfil : ([mkArticle en t].filter (fun a => decide (a.url ≠ ""))) =
                  [mkArticle en t] := by
                simp [List.filter, hurl, hu]
              rw [hfil]
              rw [List.pairwise_append]
              refine ⟨h, by simp, ?_⟩
              intro x hx y hy
              have hxacc : x ∈ acc := List.mem_of_mem_filter hx
              have hdup2 : acc.any (fun a => a.url == u) = false := by
                simpa [isDuplicate, hhref] using hdup
              have hne : (x.url == u) = false := by
                cases hc : (x.url == u)
                · rfl
                · exfalso
                  have hany : acc.any (fun a => a.url == u) = true :=
                    List.any_eq_true.mpr ⟨x, hxacc, hc⟩
                  rw [hany] at hdup2
                  exact Bool.true_eq_false.mp hdup2
              have hy2 : y = mkArticle en t := by simpa using hy
              rw [hy2, hurl]
              intro hc
              rw [hc] at hne
              simp at hne

theorem processEntries_urlsOk (s e : Option Int) :
    ∀ (l : List Entry) (acc : List Article), UrlsOk acc →
      UrlsOk (processEntries s e acc l).1 := by
  intro l
  induction l with
  | nil => intro acc h; exact h
  | cons x xs ih =>
    intro acc h
    cases hpe : processEntry s e acc x with
    | none =>
      rw [processEntries_cons_throw s e acc x xs hpe]
      exact h
    | some acc2 =>
      rw [processEntries_cons_ok s e acc acc2 x xs hpe]
      exact ih acc2 (processEntry_urlsOk s e acc acc2 x hpe h)

theorem crawlGo_urlsOk (world : String → FetchResult) (s e : Option Int) (base : String) :
    ∀ (fuel page : Nat) (acc : List Article), UrlsOk acc →
      UrlsOk (crawlGo world s e base page fuel acc).1 := by
  intro fuel
  induction fuel with
  | zero => intro page acc h; exact h
  | succ fuel ih =>
    intro page acc h
    cases hw : world (pageUrlOf base page) with
    | err => rw [crawlGo_err world s e base page fuel acc hw]; exact h
    | ok st pg =>
      by_cases hst : st = 200
      · subst hst
        by_cases hemp : pg.entries = []
        · rw [crawlGo_empty_page world s e base page fuel acc pg hw hemp]; exact h
        · cases hpe : processEntries s e acc pg.entries with
          | mk acc2 thrown =>
            have hacc2 : UrlsOk acc2 := by
              have h3 := processEntries_urlsOk s e pg.entries acc h
              rw [hpe] at h3
              exact h3
            cases thrown with
            | true =>
              rw [crawlGo_throw world s e base page fuel acc acc2 pg hw hemp hpe]
              exact hacc2
            | false =>
              cases hnx : pageHasNext pg with
              | true =>
                rw [crawlGo_next world s e base page fuel acc acc2 pg hw hemp hpe hnx]
                exact ih (page+1) acc2 hacc2
              | false =>
                rw [crawlGo_last world s e base page fuel acc acc2 pg hw hemp hpe hnx]
                exact hacc2
      · rw [crawlGo_bad_status world s e base page fuel acc st pg hw hst]; exact h

theorem crawlBases_urlsOk (world : String → FetchResult) (s e : Option Int) (mp : Nat) :
    ∀ (bases : List String) (acc : List Article), UrlsOk acc →
      UrlsOk (crawlBases world s e mp bases acc).1 := by
  intro bases
  induction bases with
  | nil => intro acc h; exact h
  | cons u rest ih =>
    intro acc h
    rw [crawlBases_cons]
    exact ih _ (crawlGo_urlsOk world s e u mp 1 acc h)

theorem scraper_urlsOk (world : String → FetchResult) (sd ed : String) (mp : Nat) :
    UrlsOk (tecotecBlogScraper world sd ed mp).articles := by
  have hbase : UrlsOk (crawlBases world (jsDateParse sd) (jsDateParse ed) mp
      (urlsToCheck (jsDateParse sd) (jsDateParse ed)) []).1 :=
    crawlBases_urlsOk world (jsDateParse sd) (jsDateParse ed) mp
      (urlsToCheck (jsDateParse sd) (jsDateParse ed)) [] (by simp [UrlsOk])
  unfold UrlsOk at hbase ⊢
  have hperm : ((tecotecBlogScraper world sd ed mp).articles.filter
        (fun a => decide (a.url ≠ ""))).Perm
      ((crawlBases world (jsDateParse sd) (jsDateParse ed) mp
        (urlsToCheck (jsDateParse sd) (jsDateParse ed)) []).1.filter
        (fun a => decide (a.url ≠ ""))) := by
    apply List.Perm.filter
    simpa [tecotecBlogScraper, sortArticles] using
      stableSortDesc_perm articleDateKey
        (crawlBases world (jsDateParse sd) (jsDateParse ed) mp
          (urlsToCheck (jsDateParse sd) (jsDateParse ed)) []).1
  exact (hperm.pairwise_iff (fun hab => Ne.symm hab)).mpr hbase

/-! An empty window accepts nothing -/

theorem processEntry_const (s e : Option Int) (hwin : ∀ t, inWindow s e t = false)
    (acc : List Article) (en : Entry) :
    processEntry s e acc en = some acc ∨ processEntry s e acc en = none := by
  cases hdt : entryDateText en with
  | none => exact Or.inl (processEntry_no_date s e acc en hdt)
  | some dt =>
    cases hts : jsDateParse dt with
    | none => exact Or.inr (processEntry_nan s e acc en dt hdt hts)
    | some t => exact Or.inl (processEntry_outside s e acc en dt t hdt hts (hwin t))

theorem processEntries_const (s e : Option Int) (hwin : ∀ t, inWindow s e t = false) :
    ∀ (l : List Entry) (acc : List Article), (processEntries s e acc l).1 = acc := by
  intro l
  induction l with
  | nil => intro acc; rfl
  | cons x xs ih =>
    intro acc
    rcases processEntry_const s e hwin acc x with hpe | hpe
    · rw [processEntries_cons_ok s e acc acc x xs hpe, ih acc]
    · rw [processEntries_cons_throw s e acc x xs hpe]

theorem crawlGo_const (world : String → FetchResult) (s e : Option Int) (base : String)
    (hwin : ∀ t, inWindow s e t = false) :
    ∀ (fuel page : Nat) (acc : List Article),
      (crawlGo world s e base page fuel acc).1 = acc := by
  intro fuel
  induction fuel with
  | zero => intro page acc; rfl
  | succ fuel ih =>
    intro page acc
    cases hw : world (pageUrlOf base page) with
    | err => rw [crawlGo_err world s e base page fuel acc hw]
    | ok st pg =>
      by_cases hst : st = 200
      · subst hst
        by_cases hemp : pg.entries = []
        · rw [crawlGo_empty_page world s e base page fuel acc pg hw hemp]
        · cases hpe : processEntries s e acc pg.entries with
          | mk acc2 thrown =>
            have hacc2 : acc2 = acc := by
              have h3 := processEntries_const s e hwin pg.entries acc
              rw [hpe] at h3
              exact h3
            rw [hacc2] at hpe
            cases thrown with
            | true =>
              rw [crawlGo_throw world s e base page fuel acc acc pg hw hemp hpe]
            | false =>
              cases hnx : pageHasNext pg with
              | true =>
                rw [crawlGo_next world s e base page fuel acc acc pg hw hemp hpe hnx]
                exact ih (page+1) acc
              | false =>
                rw [crawlGo_last world s e base page fuel acc acc pg hw hemp hpe hnx]
      · rw [crawlGo_bad_status world s e base page fuel acc st pg hw hst]

theorem crawlBases_const (world : String → FetchResult) (s e : Option Int) (mp : Nat)
    (hwin : ∀ t, inWindow s e t = false) :
    ∀ (bases : List String) (acc : List Article),
      (crawlBases world s e mp bases acc).1 = acc := by
  intro bases
  induction bases with
  | nil => intro acc; rfl
  | cons u rest ih =>
    intro acc
    rw [crawlBases_cons]
    simp only
    rw [ih]
    exact crawlGo_const world s e u hwin mp 1 acc

/-! The crawler fetches at most `fuel` pages per base URL -/

theorem crawlGo_fetch_le (world : String → FetchResult) (s e : Option Int)
    (base : String) :
    ∀ (fuel page : Nat) (acc : List Article),
      (crawlGo world s e base page fuel acc).2.length ≤ fuel := by
  intro fuel
  induction fuel with
  | zero => intro page acc; simp [crawlGo_zero]
  | succ fuel ih =>
    intro page acc
    cases hw : world (pageUrlOf base page) with
    | err => rw [crawlGo_err world s e base page fuel acc hw]; simp
    | ok st pg =>
      by_cases hst : st = 200
      · subst hst
        by_cases hemp : pg.entries = []
        · rw [crawlGo_empty_page world s e base page fuel acc pg hw hemp]; simp
        · cases hpe : processEntries s e acc pg.entries with
          | mk acc2 thrown =>
            cases thrown with
            | true =>
              rw [crawlGo_throw world s e base page fuel acc acc2 pg hw hemp hpe]
              simp
            | false =>
              cases hnx : pageHasNext pg with
              | true =>
                rw [crawlGo_next world s e base page fuel acc acc2 pg hw hemp hpe hnx]
                simp only [List.length_cons]
                have h4 := ih (page+1) acc2
                omega
              | false =>
                rw [crawlGo_last world s e base page fuel acc acc2 pg hw hemp hpe hnx]
                simp
      · rw [crawlGo_bad_status world s e base page fuel acc st pg hw hst]; simp

/-! Day arithmetic for the window bounds -/

theorem fdiv_day_in (ds de t : Int) (h1 : ds * 86400000 ≤ t)
    (h2 : t ≤ de * 86400000) :
    ds ≤ Int.fdiv t 86400000 ∧ Int.fdiv t 86400000 ≤ de := by
  have hpos : (0 : Int) < 86400000 := by norm_num
  rw [Int.fdiv_eq_ediv _ (le_of_lt hpos)]
  constructor
  · rw [Int.le_ediv_iff_mul_le hpos]
    exact h1
  · have hh := Int.ediv_le_ediv hpos h2
    rwa [Int.mul_ediv_cancel _ (by norm_num : (86400000:Int) ≠ 0)] at hh

/-! ### Enumeration helper lemmas -/

theorem yearRange_mem (a b y : Int) : y ∈ yearRange a b ↔ a ≤ y ∧ y ≤ b := by
  unfold yearRange
  by_cases hab : a ≤ b
  · rw [if_pos hab]
    simp only [List.mem_map, List.mem_range]
    constructor
    · rintro ⟨i, hi, rfl⟩
      omega
    · intro hy
      refine ⟨(y - a).toNat, ?_, ?_⟩ <;> omega
  · rw [if_neg hab]
    simp
    omega

theorem yearRange_pairwise (a b : Int) : (yearRange a b).Pairwise (· < ·) := by
  unfold yearRange
  by_cases hab : a ≤ b
  · rw [if_pos hab]
    refine List.Pairwise.map _ ?_ (List.pairwise_lt_range _)
    intro i j hij
    omega
  · rw [if_neg hab]
    simp

theorem natRepr_length_pos (n : Nat) : 1 ≤ (natRepr n).length := by
  have h := natDigits_ne_nil n
  have hlen : (natRepr n).length = (natDigits n).length := by
    simp [natRepr, String.length]
  rw [hlen]
  cases hd : natDigits n with
  | nil => exact absurd hd h
  | cons x xs => simp

theorem intRepr_length_pos (i : Int) : 1 ≤ (intRepr i).length := by
  unfold intRepr
  by_cases h : i < 0
  · rw [if_pos h, String.length_append]
    have h2 := natRepr_length_pos (-i).toNat
    omega
  · rw [if_neg h]
    exact natRepr_length_pos _

theorem archiveUrlOf_inj : Function.Injective archiveUrlOf := by
  intro y1 y2 h
  unfold archiveUrlOf at h
  have hdata := congrArg String.data h
  simp only [String.data_append, List.append_assoc] at hdata
  have h2 := List.append_cancel_left (List.append_cancel_left hdata)
  have h3 : intRepr y1 = intRepr y2 := by
    have := congrArg String.mk h2
    simpa using this
  exact intRepr_injective y1 y2 h3

theorem archiveUrlOf_ne_blog (y : Int) : archiveUrlOf y ≠ blogUrl := by
  intro h
  have hlen := congrArg String.length h
  unfold archiveUrlOf at hlen
  simp only [String.length_append] at hlen
  have h8 : ("archive/" : String).length = 8 := rfl
  have hp := intRepr_length_pos y
  omega

theorem urlsToCheck_nodup (s e : Option Int) : (urlsToCheck s e).Nodup := by
  unfold urlsToCheck
  rw [List.nodup_append]
  refine ⟨?_, by simp, ?_⟩
  · apply List.Nodup.map archiveUrlOf_inj
    cases s with
    | none => simp [yearsFor]
    | some sv =>
      cases e with
      | none => simp [yearsFor]
      | some ev =>
        simp only [yearsFor]
        exact (yearRange_pairwise (yearOfTs sv) (yearOfTs ev)).imp (fun hab => ne_of_lt hab)
  · intro x hx hmem
    simp only [List.mem_singleton] at hmem
    rcases List.mem_map.mp hx with ⟨y, _, hy⟩
    exact archiveUrlOf_ne_blog y (hy.trans hmem)

/-! ### Concrete fixtures used in the claim theorems and witnesses -/

def entryUnlinked (title date : String) : Entry :=
  { titleText := title, href := none, datetimeAttr := some date,
    dateContent := "", authorText := "", dataUserName := none,
    description := "", tagLabels := [] }

/-- A world in which the 2023 archive page lists two entries that both lack a
heading link, and every other fetch fails. -/
def w1 : String → FetchResult := fun u =>
  if u = "https://tec.tecotec.co.jp/archive/2023" then
    FetchResult.ok 200 { entries := [entryUnlinked "A" "2023-07-04",
                                     entryUnlinked "B" "2023-07-05"],
                         nextHref := none }
  else FetchResult.err

def errWorld : String → FetchResult := fun _ => FetchResult.err

def enNoDate : Entry :=
  { titleText := "Z", href := some "uz", datetimeAttr := none,
    dateContent := "no date here", authorText := "", dataUserName := none,
    description := "", tagLabels := [] }

/-- An entry whose `datetime` attribute is truthy but not a parseable date:
`new Date` gives an Invalid Date and `toISOString()` throws. -/
def enBadDate : Entry :=
  { titleText := "W", href := some "uw", datetimeAttr := some "not-a-date",
    dateContent := "", authorText := "", dataUserName := none,
    description := "", tagLabels := [] }

def en8a : Entry :=
  { titleText := "X", href := some "u8a", datetimeAttr := some "2023-07-04T00:00:00Z",
    dateContent := "", authorText := "", dataUserName := none, description := "",
    tagLabels := [] }

def en8b : Entry :=
  { titleText := "Y", href := some "u8b", datetimeAttr := none,
    dateContent := "2023年7月4日", authorText := "", dataUserName := none,
    description := "", tagLabels := [] }

def enAuthor : Entry :=
  { titleText := "T", href := some "u3", datetimeAttr := some "2023-07-04",
    dateContent := "", authorText := " 山田 ", dataUserName := some "yama-data",
    description := "こんにちは。開発部の田中です。", tagLabels := ["a", "b"] }

/-- A world for one base URL `"b"`: pages 1 and 2 list one (undated) entry and
have a next-page link, page 3 is empty, later pages would succeed if fetched. -/
def w4 : String → FetchResult := fun u =>
  if u = "b" then FetchResult.ok 200 { entries := [enNoDate], nextHref := some "n" }
  else if u = "b?page=2" then
    FetchResult.ok 200 { entries := [enNoDate], nextHref := some "n" }
  else if u = "b?page=3" then
    FetchResult.ok 200 { entries := [], nextHref := some "n" }
  else FetchResult.ok 200 { entries := [enNoDate], nextHref := some "n" }

def artDated (title date : String) : Article :=
  { title := title, url := title, date := date, author := "", authorFromIntro := "",
    authorFromData := "", summary := "", categories := [] }

def fa1 : FArticle :=
  { title := "t1", url := "u1", date := "2024-05-01", author := none, summary := none,
    categories := none }

/-- The spec-side author resolution rule: the first non-empty candidate,
else the default. -/
def firstNonEmpty : List String → String → String
  | [], dflt => dflt
  | s :: rest, dflt => if s ≠ "" then s else firstNonEmpty rest dflt

theorem resolveAuthor_eq_firstNonEmpty (en : Entry) :
    resolveAuthor en
      = firstNonEmpty [entryAuthorFromEntry en, entryAuthorFromData en,
          entryAuthorFromIntro en] defaultAuthor := by
  unfold resolveAuthor jsOrStr
  by_cases h1 : entryAuthorFromEntry en = "" <;>
    by_cases h2 : entryAuthorFromData en = "" <;>
      by_cases h3 : entryAuthorFromIntro en = "" <;>
        simp [firstNonEmpty, h1, h2, h3]

/-! ### Claim theorems -/

/-- C1 counterexample: in the world `w1` the pipeline returns two distinct
records (titles "B" and "A") that share the same `url` value `""`, because an
entry with an absent heading link is compared with `===` against `undefined`
and therefore never counts as a duplicate. This refutes the claim that every
two distinct records of one invocation have different `url` values. -/
theorem c1_counterexample :
    (tecotecBlogScraper w1 "2023-07-01" "2023-07-31" 5).articles.map Article.url
        = ["", ""]
    ∧ (tecotecBlogScraper w1 "2023-07-01" "2023-07-31" 5).articles.map Article.title
        = ["B", "A"]
    ∧ ¬ ((tecotecBlogScraper w1 "2023-07-01" "2023-07-31" 5).articles.Pairwise
          (fun a b => a.url ≠ b.url)) := by
  refine ⟨by decide, by decide, by decide⟩

/-- C1 (amended): `url` values are unique among the returned records whose
`url` is non-empty (the dedup key applies to entries carrying a heading link;
first occurrence wins and a later extracted entry with a parsed date and an
already-recorded `url` is dropped — an entry whose date text does not parse
throws before the dedup check and records nothing either), while entries
whose heading link is absent are always recorded with `url` equal to the
empty string and are exempt from deduplication, so several empty-`url`
records may coexist. -/
theorem c1_url_unique_amended :
    (∀ (world : String → FetchResult) (sd ed : String) (mp : Nat),
        ((tecotecBlogScraper world sd ed mp).articles.filter
            (fun a => decide (a.url ≠ ""))).Pairwise (fun a b => a.url ≠ b.url))
    ∧ (∀ acc : List Article, isDuplicate acc none = false)
    ∧ (∀ (s e : Option Int) (acc : List Article) (en : Entry) (u dt : String)
        (t : Int),
        en.href = some u → entryDateText en = some dt → jsDateParse dt = some t →
        isDuplicate acc (some u) = true →
        processEntry s e acc en = some acc)
    ∧ (∀ (s e : Option Int) (acc : List Article) (en : Entry) (dt : String) (t : Int),
        en.href = none → entryDateText en = some dt → jsDateParse dt = some t →
        inWindow s e t = true →
        processEntry s e acc en = some (acc ++ [mkArticle en t])
          ∧ (mkArticle en t).url = "") := by
  refine ⟨?_, ?_, ?_, ?_⟩
  · intro world sd ed mp
    exact scraper_urlsOk world sd ed mp
  · intro acc
    rfl
  · intro s e acc en u dt t hh hdt hts hdup
    cases hw : inWindow s e t with
    | false => exact processEntry_outside s e acc en dt t hdt hts hw
    | true =>
      apply processEntry_dup s e acc en dt t hdt hts hw
      rw [hh]
      exact hdup
  · intro s e acc en dt t hh hdt hts hw
    constructor
    · apply processEntry_add s e acc en dt t hdt hts hw
      rw [hh]
      rfl
    · simp [mkArticle, hh]

/-- C1 witness: the amended theorem applied to one unlinked in-window entry. -/
theorem c1_url_unique_amended_witness :
    processEntry (some 1688169600000) (some 1690761600000) []
        (entryUnlinked "A" "2023-07-04")
      = some ([] ++ [mkArticle (entryUnlinked "A" "2023-07-04") 1688428800000])
    ∧ (mkArticle (entryUnlinked "A" "2023-07-04") 1688428800000).url = "" :=
  c1_url_unique_amended.2.2.2 (some 1688169600000) (some 1690761600000) []
    (entryUnlinked "A" "2023-07-04") "2023-07-04" 1688428800000 rfl (by decide)
    (by decide) (by decide)

/-- C10 counterexample: for the inverted range 2023-05-01 … 2023-01-01 (both
dates in the same year) the crawl still fetches the 2023 archive-year URL, so
it is not the case that only the site root is crawled. -/
theorem c10_counterexample :
    scrapeFetchLog errWorld "2023-05-01" "2023-01-01" 5
        = ["https://tec.tecotec.co.jp/archive/2023", "https://tec.tecotec.co.jp/"]
    ∧ "https://tec.tecotec.co.jp/archive/2023" ≠ "https://tec.tecotec.co.jp/" := by
  refine ⟨by decide, by decide⟩

/-- C10 (amended): for well-formed dates with `endDate` strictly earlier than
`startDate`, the pipeline completes without error, accepts no entry whatever
the pages contain (the closed window is empty), and returns an envelope with
an empty articles list, `totalCount` 0 and the two input strings echoed in
`period`; the enumerated base URLs are still one archive URL per year from
`startDate`'s year to `endDate`'s year (an empty set of years only when
`endDate`'s year is strictly smaller) plus the site root. -/
theorem c10_inverted_range_amended (world : String → FetchResult) (sd ed : String)
    (mp : Nat) (s e : Int) (hs : jsDateParse sd = some s) (he : jsDateParse ed = some e)
    (hlt : e < s) :
    tecotecBlogScraper world sd ed mp
        = { articles := [], totalCount := 0, period := (sd, ed) }
    ∧ urlsToCheck (jsDateParse sd) (jsDateParse ed)
        = (yearRange (yearOfTs s) (yearOfTs e)).map archiveUrlOf ++ [blogUrl] := by
  have hwin : ∀ t, inWindow (some s) (some e) t = false := by
    intro t
    simp only [inWindow, Bool.and_eq_false_iff, decide_eq_false_iff_not, not_le]
    omega
  constructor
  · have h1 : (crawlBases world (jsDateParse sd) (jsDateParse ed) mp
        (urlsToCheck (jsDateParse sd) (jsDateParse ed)) []).1 = [] := by
      rw [hs, he]
      exact crawlBases_const world (some s) (some e) mp hwin _ []
    have h2 : tecotecBlogScraper world sd ed mp
        = { articles := sortArticles (crawlBases world (jsDateParse sd)
              (jsDateParse ed) mp (urlsToCheck (jsDateParse sd) (jsDateParse ed)) []).1,
            totalCount := (sortArticles (crawlBases world (jsDateParse sd)
              (jsDateParse ed) mp
              (urlsToCheck (jsDateParse sd) (jsDateParse ed)) []).1).length,
            period := (sd, ed) } := rfl
    rw [h2, h1]
    rfl
  · rw [hs, he]
    rfl

/-- C10 witness: the amended theorem at the inverted range
2023-05-01 … 2023-01-01 under the all-failing world. -/
theorem c10_inverted_range_amended_witness :
    tecotecBlogScraper errWorld "2023-05-01" "2023-01-01" 5
        = { articles := [], totalCount := 0, period := ("2023-05-01", "2023-01-01") }
    ∧ urlsToCheck (jsDateParse "2023-05-01") (jsDateParse "2023-01-01")
        = (yearRange (yearOfTs 1682899200000) (yearOfTs 1672531200000)).map archiveUrlOf
          ++ [blogUrl] :=
  c10_inverted_range_amended errWorld "2023-05-01" "2023-01-01" 5
    1682899200000 1672531200000 (by decide) (by decide) (by decide)

/-- C2: every returned record's date comes from a timestamp inside the closed
window `[startDate, endDate]` (midnight-UTC bounds `ds`, `de` given as day
numbers), and the corresponding day number lies between the two bound days;
an entry dated exactly at either bound passes the window check and is
recorded when it is not a duplicate, while an entry even one day (86400000 ms)
outside either bound is rejected. -/
theorem c2_closed_window (world : String → FetchResult) (sd ed : String) (mp : Nat)
    (s e ds de : Int)
    (hs : jsDateParse sd = some s) (he : jsDateParse ed = some e)
    (hds : s = ds * 86400000) (hde : e = de * 86400000) (hle : s ≤ e) :
    (∀ r ∈ (tecotecBlogScraper world sd ed mp).articles,
        ∃ t, s ≤ t ∧ t ≤ e ∧ r.date = isoDateOf t
          ∧ ds ≤ Int.fdiv t 86400000 ∧ Int.fdiv t 86400000 ≤ de)
    ∧ inWindow (some s) (some e) s = true
    ∧ inWindow (some s) (some e) e = true
    ∧ inWindow (some s) (some e) (s - 86400000) = false
    ∧ inWindow (some s) (some e) (e + 86400000) = false
    ∧ (∀ (acc : List Article) (en : Entry) (dt : String) (t : Int),
        entryDateText en = some dt → jsDateParse dt = some t →
        isDuplicate acc en.href = false → s ≤ t → t ≤ e →
        processEntry (some s) (some e) acc en = some (acc ++ [mkArticle en t]))
    ∧ (∀ (acc : List Article) (en : Entry) (dt : String) (t : Int),
        entryDateText en = some dt → jsDateParse dt = some t →
        (t < s ∨ e < t) → processEntry (some s) (some e) acc en = some acc) := by
  refine ⟨?_, ?_, ?_, ?_, ?_, ?_, ?_⟩
  · intro r hr
    have hf := scraper_mem world sd ed mp r hr
    rw [hs, he] at hf
    obtain ⟨en, t, hre, hwt⟩ := hf
    have hst : s ≤ t ∧ t ≤ e := by
      simpa [inWindow] using hwt
    have hdays := fdiv_day_in ds de t (by omega) (by omega)
    exact ⟨t, hst.1, hst.2, by rw [hre]; rfl, hdays.1, hdays.2⟩
  · simp only [inWindow, Bool.and_eq_true, decide_eq_true_eq]
    omega
  · simp only [inWindow, Bool.and_eq_true, decide_eq_true_eq]
    omega
  · simp only [inWindow, Bool.and_eq_false_iff, decide_eq_false_iff_not, not_le]
    omega
  · simp only [inWindow, Bool.and_eq_false_iff, decide_eq_false_iff_not, not_le]
    omega
  · intro acc en dt t hdt hts hdup h1 h2
    refine processEntry_add (some s) (some e) acc en dt t hdt hts ?_ hdup
    simp only [inWindow, Bool.and_eq_true, decide_eq_true_eq]
    omega
  · intro acc en dt t hdt hts hout
    refine processEntry_outside (some s) (some e) acc en dt t hdt hts ?_
    simp only [inWindow, Bool.and_eq_false_iff, decide_eq_false_iff_not, not_le]
    omega

/-- C2 witness: the window 2023-07-01 … 2023-07-31; both bounds are accepted
by the window check and one day outside either bound is rejected. -/
theorem c2_closed_window_witness :
    inWindow (some 1688169600000) (some 1690761600000) 1688169600000 = true
    ∧ inWindow (some 1688169600000) (some 1690761600000) 1690761600000 = true
    ∧ inWindow (some 1688169600000) (some 1690761600000)
        (1688169600000 - 86400000) = false
    ∧ inWindow (some 1688169600000) (some 1690761600000)
        (1690761600000 + 86400000) = false :=
  ⟨(c2_closed_window w1 "2023-07-01" "2023-07-31" 5 1688169600000 1690761600000
      19539 19569 (by decide) (by decide) (by decide) (by decide) (by decide)).2.1,
   (c2_closed_window w1 "2023-07-01" "2023-07-31" 5 1688169600000 1690761600000
      19539 19569 (by decide) (by decide) (by decide) (by decide) (by decide)).2.2.1,
   (c2_closed_window w1 "2023-07-01" "2023-07-31" 5 1688169600000 1690761600000
      19539 19569 (by decide) (by decide) (by decide) (by decide) (by decide)).2.2.2.1,
   (c2_closed_window w1 "2023-07-01" "2023-07-31" 5 1688169600000 1690761600000
      19539 19569 (by decide) (by decide) (by decide) (by decide) (by decide)).2.2.2.2.1⟩

/-- C3: the resolved `author` of every built record is the first non-empty
candidate in the order explicit author element, data-attribute username,
greeting-derived name, else the fixed default "テコテック"; in particular with
all three candidates non-empty it equals the explicit-element value, and every
record of a pipeline invocation carries an author resolved by this rule. -/
theorem c3_author_priority :
    (∀ (en : Entry) (t : Int), (mkArticle en t).author
        = firstNonEmpty [entryAuthorFromEntry en, entryAuthorFromData en,
            entryAuthorFromIntro en] defaultAuthor)
    ∧ (∀ (en : Entry) (t : Int),
        entryAuthorFromEntry en ≠ "" → entryAuthorFromData en ≠ "" →
        entryAuthorFromIntro en ≠ "" →
        (mkArticle en t).author = entryAuthorFromEntry en)
    ∧ (∀ (world : String → FetchResult) (sd ed : String) (mp : Nat),
        ∀ r ∈ (tecotecBlogScraper world sd ed mp).articles,
          ∃ en t, r = mkArticle en t
            ∧ r.author = firstNonEmpty [entryAuthorFromEntry en,
                entryAuthorFromData en, entryAuthorFromIntro en] defaultAuthor) := by
  have hma : ∀ (en : Entry) (t : Int), (mkArticle en t).author = resolveAuthor en :=
    fun en t => rfl
  refine ⟨?_, ?_, ?_⟩
  · intro en t
    rw [hma, resolveAuthor_eq_firstNonEmpty]
  · intro en t h1 h2 h3
    rw [hma]
    unfold resolveAuthor jsOrStr
    rw [if_neg h1]
  · intro world sd ed mp r hr
    obtain ⟨en, t, hre, _⟩ := scraper_mem world sd ed mp r hr
    exact ⟨en, t, hre, by rw [hre, hma, resolveAuthor_eq_firstNonEmpty]⟩

/-- C3 witness: an entry carrying all three author candidates resolves to the
explicit author element's (trimmed) text. -/
theorem c3_author_priority_witness :
    (mkArticle enAuthor 0).author = entryAuthorFromEntry enAuthor
    ∧ entryAuthorFromEntry enAuthor = "山田"
    ∧ entryAuthorFromData enAuthor = "yama-data"
    ∧ entryAuthorFromIntro enAuthor = "田中" :=
  ⟨c3_author_priority.2.1 enAuthor 0 (by decide) (by decide) (by decide),
   by decide, by decide, by decide⟩

theorem sortFArticles_idem (l : List FArticle) :
    sortFArticles (sortFArticles l) = sortFArticles l :=
  stableSortDesc_idem fArticleDateKey l

/-- C4: the per-base-URL crawl fetches at most `maxPages` pages (the loop
terminates by construction), stops immediately on a non-success status, an
empty page, a missing next-page link, or a `RangeError` escaping entry
extraction; and in the concrete scenario where page 3 is empty while pages 1
and 2 succeed with next-page links and extract without throwing, exactly
pages 1-3 are fetched and only the entries of pages 1 and 2 are processed,
for every `maxPages` greater than 3. -/
theorem c4_pagination_termination :
    (∀ (world : String → FetchResult) (s e : Option Int) (base : String)
        (fuel page : Nat) (acc : List Article),
        (crawlGo world s e base page fuel acc).2.length ≤ fuel)
    ∧ (∀ (world : String → FetchResult) (s e : Option Int) (base : String)
        (page fuel : Nat) (acc : List Article) (st : Nat) (pg : Page),
        world (pageUrlOf base page) = FetchResult.ok st pg → st ≠ 200 →
        crawlGo world s e base page (fuel+1) acc = (acc, [pageUrlOf base page]))
    ∧ (∀ (world : String → FetchResult) (s e : Option Int) (base : String)
        (page fuel : Nat) (acc : List Article) (pg : Page),
        world (pageUrlOf base page) = FetchResult.ok 200 pg → pg.entries = [] →
        crawlGo world s e base page (fuel+1) acc = (acc, [pageUrlOf base page]))
    ∧ (∀ (world : String → FetchResult) (s e : Option Int) (base : String)
        (page fuel : Nat) (acc acc2 : List Article) (pg : Page),
        world (pageUrlOf base page) = FetchResult.ok 200 pg → pg.entries ≠ [] →
        processEntries s e acc pg.entries = (acc2, false) →
        pageHasNext pg = false →
        crawlGo world s e base page (fuel+1) acc = (acc2, [pageUrlOf base page]))
    ∧ (∀ (world : String → FetchResult) (s e : Option Int) (base : String)
        (page fuel : Nat) (acc acc2 : List Article) (pg : Page),
        world (pageUrlOf base page) = FetchResult.ok 200 pg → pg.entries ≠ [] →
        processEntries s e acc pg.entries = (acc2, true) →
        crawlGo world s e base page (fuel+1) acc = (acc2, [pageUrlOf base page]))
    ∧ (∀ (world : String → FetchResult) (s e : Option Int) (base : String)
        (mp : Nat) (acc acc1 acc2 : List Article) (p1 p2 p3 : Page),
        3 < mp →
        world (pageUrlOf base 1) = FetchResult.ok 200 p1 → p1.entries ≠ [] →
        processEntries s e acc p1.entries = (acc1, false) →
        pageHasNext p1 = true →
        world (pageUrlOf base 2) = FetchResult.ok 200 p2 → p2.entries ≠ [] →
        processEntries s e acc1 p2.entries = (acc2, false) →
        pageHasNext p2 = true →
        world (pageUrlOf base 3) = FetchResult.ok 200 p3 → p3.entries = [] →
        crawlBase world s e mp base acc
          = (acc2, [pageUrlOf base 1, pageUrlOf base 2, pageUrlOf base 3])) := by
  refine ⟨?_, ?_, ?_, ?_, ?_, ?_⟩
  · intro world s e base fuel page acc
    exact crawlGo_fetch_le world s e base fuel page acc
  · intro world s e base page fuel acc st pg h hst
    exact crawlGo_bad_status world s e base page fuel acc st pg h hst
  · intro world s e base page fuel acc pg h hemp
    exact crawlGo_empty_page world s e base page fuel acc pg h hemp
  · intro world s e base page fuel acc acc2 pg h hne hpe hnx
    exact crawlGo_last world s e base page fuel acc acc2 pg h hne hpe hnx
  · intro world s e base page fuel acc acc2 pg h hne hpe
    exact crawlGo_throw world s e base page fuel acc acc2 pg h hne hpe
  · intro world s e base mp acc acc1 acc2 p1 p2 p3 hmp h1 h1e hp1 h1n h2 h2e hp2
      h2n h3 h3e
    obtain ⟨k, rfl⟩ : ∃ k, mp = k + 4 := ⟨mp - 4, by omega⟩
    have e1 : crawlGo world s e base 1 (k + 3 + 1) acc
        = ((crawlGo world s e base 2 (k + 2 + 1) acc1).1,
           pageUrlOf base 1 :: (crawlGo world s e base 2 (k + 2 + 1) acc1).2) :=
      crawlGo_next world s e base 1 (k + 3) acc acc1 p1 h1 h1e hp1 h1n
    have e2 : crawlGo world s e base 2 (k + 2 + 1) acc1
        = ((crawlGo world s e base 3 (k + 1 + 1) acc2).1,
           pageUrlOf base 2 :: (crawlGo world s e base 3 (k + 1 + 1) acc2).2) :=
      crawlGo_next world s e base 2 (k + 2) acc1 acc2 p2 h2 h2e hp2 h2n
    have e3 : crawlGo world s e base 3 (k + 1 + 1) acc2
        = (acc2, [pageUrlOf base 3]) :=
      crawlGo_empty_page world s e base 3 (k + 1) acc2 p3 h3 h3e
    show crawlGo world s e base 1 (k + 3 + 1) acc = _
    rw [e1, e2, e3]

/-- C4 witness: the scenario theorem applied to the world `w4` whose page 3 of
base URL `"b"` is empty, with `maxPages = 7`; extraction of the undated entry
on pages 1 and 2 does not throw. -/
theorem c4_pagination_termination_witness :
    crawlBase w4 none none 7 "b" [] = ([], ["b", "b?page=2", "b?page=3"]) := by
  have h := c4_pagination_termination.2.2.2.2.2 w4 none none "b" 7 [] [] []
    { entries := [enNoDate], nextHref := some "n" }
    { entries := [enNoDate], nextHref := some "n" }
    { entries := [], nextHref := some "n" }
    (by omega) rfl (by decide) (by decide) rfl rfl (by decide) (by decide) rfl
    rfl rfl
  rw [h]
  decide

/-- C5: for well-formed dates, the crawled base URLs are exactly one archive
URL per calendar year from `startDate`'s year to `endDate`'s year inclusive,
in ascending year order, followed by the site root, with no duplicates; this
is a pure function of the two dates, and on 2022-03-01 … 2023-01-15 it gives
exactly the 2022 and 2023 archive URLs plus the root. -/
theorem c5_source_enumeration :
    (∀ (sd ed : String) (s e : Int),
        jsDateParse sd = some s → jsDateParse ed = some e →
        urlsToCheck (jsDateParse sd) (jsDateParse ed)
          = (yearRange (yearOfTs s) (yearOfTs e)).map archiveUrlOf ++ [blogUrl])
    ∧ (∀ a b y : Int, y ∈ yearRange a b ↔ a ≤ y ∧ y ≤ b)
    ∧ (∀ a b : Int, (yearRange a b).Pairwise (· < ·))
    ∧ (∀ s e : Option Int, (urlsToCheck s e).Nodup)
    ∧ urlsToCheck (jsDateParse "2022-03-01") (jsDateParse "2023-01-15")
        = ["https://tec.tecotec.co.jp/archive/2022",
           "https://tec.tecotec.co.jp/archive/2023",
           "https://tec.tecotec.co.jp/"] := by
  refine ⟨?_, yearRange_mem, yearRange_pairwise, urlsToCheck_nodup, by decide⟩
  intro sd ed s e hs he
  rw [hs, he]
  rfl

/-- C5 witness: the enumeration equation at 2022-03-01 … 2023-01-15. -/
theorem c5_source_enumeration_witness :
    urlsToCheck (jsDateParse "2022-03-01") (jsDateParse "2023-01-15")
      = (yearRange (yearOfTs 1646092800000) (yearOfTs 1673740800000)).map archiveUrlOf
        ++ [blogUrl] :=
  c5_source_enumeration.1 "2022-03-01" "2023-01-15" 1646092800000 1673740800000
    (by decide) (by decide)

/-- C6: the returned list is the stable descending-by-date sort of the
accepted records: it is a permutation of them, adjacent-or-later records have
dates no larger than earlier ones (when all dates parse), records with any
given date keep their insertion order, and the three-record example sorts as
2024-05-03 first, then the two 2024-05-01 records in insertion order. -/
theorem c6_final_ordering :
    (∀ (world : String → FetchResult) (sd ed : String) (mp : Nat),
        (tecotecBlogScraper world sd ed mp).articles
          = sortArticles (crawlBases world (jsDateParse sd) (jsDateParse ed) mp
              (urlsToCheck (jsDateParse sd) (jsDateParse ed)) []).1)
    ∧ (∀ l : List Article, (sortArticles l).Perm l)
    ∧ (∀ l : List Article, (∀ a ∈ l, (articleDateKey a).isSome = true) →
        (sortArticles l).Pairwise (fun a b => ∃ ka kb,
          articleDateKey a = some ka ∧ articleDateKey b = some kb ∧ kb ≤ ka))
    ∧ (∀ (l : List Article) (k : Int),
        (sortArticles l).filter (fun a => decide (articleDateKey a = some k))
          = l.filter (fun a => decide (articleDateKey a = some k)))
    ∧ sortArticles [artDated "p" "2024-05-01", artDated "q" "2024-05-03",
          artDated "r" "2024-05-01"]
        = [artDated "q" "2024-05-03", artDated "p" "2024-05-01",
           artDated "r" "2024-05-01"] := by
  refine ⟨?_, ?_, ?_, ?_, by decide⟩
  · intro world sd ed mp
    rfl
  · intro l
    exact stableSortDesc_perm articleDateKey l
  · intro l hall
    have hp := stableSortDesc_pairwise articleDateKey l
    refine hp.imp_of_mem ?_
    intro a b ha hb hkb
    have hamem : a ∈ l := (stableSortDesc_perm articleDateKey l).subset ha
    have hbmem : b ∈ l := (stableSortDesc_perm articleDateKey l).subset hb
    obtain ⟨ka, hka⟩ := Option.isSome_iff_exists.mp (hall a hamem)
    obtain ⟨kb, hkb3⟩ := Option.isSome_iff_exists.mp (hall b hbmem)
    refine ⟨ka, kb, hka, hkb3, ?_⟩
    simpa [keepBefore, hka, hkb3] using hkb
  · intro l k
    exact stableSortDesc_filter articleDateKey k l

/-- C6 witness: the descending-order property at the three-record example. -/
theorem c6_final_ordering_witness :
    (sortArticles [artDated "p" "2024-05-01", artDated "q" "2024-05-03",
        artDated "r" "2024-05-01"]).Pairwise (fun a b => ∃ ka kb,
      articleDateKey a = some ka ∧ articleDateKey b = some kb ∧ kb ≤ ka) :=
  c6_final_ordering.2.2.1
    [artDated "p" "2024-05-01", artDated "q" "2024-05-03", artDated "r" "2024-05-01"]
    (by decide)

/-- C7: an exception while fetching or parsing a page ends only that base
URL's crawl, returning the records accumulated so far unchanged; a base URL
failing on its first page leaves the remaining base URLs' processing
unaffected; and under a world where every fetch fails, the whole pipeline
still returns an envelope (no exception escapes) with an empty articles
list. -/
theorem c7_failure_isolation :
    (∀ (world : String → FetchResult) (s e : Option Int) (base : String)
        (page fuel : Nat) (acc : List Article),
        world (pageUrlOf base page) = FetchResult.err →
        crawlGo world s e base page (fuel+1) acc = (acc, [pageUrlOf base page]))
    ∧ (∀ (world : String → FetchResult) (s e : Option Int) (mp : Nat)
        (u : String) (rest : List String) (acc : List Article),
        world (pageUrlOf u 1) = FetchResult.err →
        (crawlBases world s e mp (u :: rest) acc).1
          = (crawlBases world s e mp rest acc).1)
    ∧ (∀ (world : String → FetchResult) (sd ed : String) (mp : Nat),
        (∀ url, world url = FetchResult.err) →
        tecotecBlogScraper world sd ed mp
          = { articles := [], totalCount := 0, period := (sd, ed) }) := by
  refine ⟨?_, ?_, ?_⟩
  · intro world s e base page fuel acc h
    exact crawlGo_err world s e base page fuel acc h
  · intro world s e mp u rest acc h
    have hb : (crawlBase world s e mp u acc).1 = acc := by
      cases mp with
      | zero => rfl
      | succ m =>
        have h2 := crawlGo_err world s e u 1 m acc h
        unfold crawlBase
        rw [h2]
    rw [crawlBases_cons, hb]
  · intro world sd ed mp hall
    have hgo : ∀ (base : String) (fuel page : Nat) (acc : List Article),
        (crawlGo world (jsDateParse sd) (jsDateParse ed) base page fuel acc).1
          = acc := by
      intro base fuel
      cases fuel with
      | zero => intro page acc; rfl
      | succ m =>
        intro page acc
        rw [crawlGo_err world (jsDateParse sd) (jsDateParse ed) base page m acc
          (hall (pageUrlOf base page))]
    have hbases : ∀ (bases : List String) (acc : List Article),
        (crawlBases world (jsDateParse sd) (jsDateParse ed) mp bases acc).1 = acc := by
      intro bases
      induction bases with
      | nil => intro acc; rfl
      | cons u rest ih =>
        intro acc
        rw [crawlBases_cons]
        simp only
        rw [ih]
        exact hgo u mp 1 acc
    have h2 : tecotecBlogScraper world sd ed mp
        = { articles := sortArticles (crawlBases world (jsDateParse sd)
              (jsDateParse ed) mp (urlsToCheck (jsDateParse sd) (jsDateParse ed)) []).1,
            totalCount := (sortArticles (crawlBases world (jsDateParse sd)
              (jsDateParse ed) mp
              (urlsToCheck (jsDateParse sd) (jsDateParse ed)) []).1).length,
            period := (sd, ed) } := rfl
    rw [h2, hbases]
    rfl

/-- C7 witness: the all-failing world returns the empty envelope. -/
theorem c7_failure_isolation_witness :
    tecotecBlogScraper errWorld "2023-07-01" "2023-07-31" 5
      = { articles := [], totalCount := 0, period := ("2023-07-01", "2023-07-31") } :=
  c7_failure_isolation.2.2 errWorld "2023-07-01" "2023-07-31" 5 (fun _ => rfl)

/-- C8: a machine-readable timestamp attribute `2023-07-04T00:00:00Z` and the
display text `2023年7月4日` (with no attribute) both normalize to the stored
`date` value `2023-07-04`; an entry where neither source yields a date text
is silently skipped and produces no record, and an entry whose date text does
not parse produces no record either: its Invalid Date throws `RangeError` at
the `toISOString()` log call, which also stops the page's remaining
entries. -/
theorem c8_date_normalization :
    ((processEntry (jsDateParse "2023-07-04") (jsDateParse "2023-07-04") [] en8a).map
        (fun l => l.map (fun a => a.date)) = some ["2023-07-04"])
    ∧ ((processEntry (jsDateParse "2023-07-04") (jsDateParse "2023-07-04") [] en8b).map
        (fun l => l.map (fun a => a.date)) = some ["2023-07-04"])
    ∧ entryDateText en8a = some "2023-07-04T00:00:00Z"
    ∧ entryDateText en8b = some "2023-07-04"
    ∧ (∀ (s e : Option Int) (acc : List Article) (en : Entry),
        entryDateText en = none → processEntry s e acc en = some acc)
    ∧ (∀ (s e : Option Int) (acc : List Article) (en : Entry) (dt : String),
        entryDateText en = some dt → jsDateParse dt = none →
        processEntry s e acc en = none)
    ∧ (∀ (s e : Option Int) (acc : List Article) (en : Entry) (dt : String)
        (rest : List Entry),
        entryDateText en = some dt → jsDateParse dt = none →
        processEntries s e acc (en :: rest) = (acc, true)) := by
  refine ⟨by decide, by decide, by decide, by decide, ?_, ?_, ?_⟩
  · intro s e acc en h
    exact processEntry_no_date s e acc en h
  · intro s e acc en dt hdt hts
    exact processEntry_nan s e acc en dt hdt hts
  · intro s e acc en dt rest hdt hts
    exact processEntries_cons_throw s e acc en rest
      (processEntry_nan s e acc en dt hdt hts)

/-- C8 witness: an entry with no extractable date text is skipped with no
record, and an entry with an unparseable date text throws (`none`), also
producing no record. -/
theorem c8_date_normalization_witness :
    processEntry none none [] enNoDate = some []
    ∧ processEntry none none [] enBadDate = none :=
  ⟨c8_date_normalization.2.2.2.2.1 none none [] enNoDate (by decide),
   c8_date_normalization.2.2.2.2.2.1 none none [] enBadDate "not-a-date"
     (by decide) (by decide)⟩

/-- C9: the formatter's output is unchanged when its input is pre-sorted (it
re-sorts by date descending itself), it emits exactly one rendered string
keyed by the selected format, and missing author/categories/summary render as
"N/A" cells in markdown and html and as empty fields in csv. -/
theorem c9_formatter_contract :
    (∀ (l : List FArticle) (f : BlogFormat) (ic is2 : Bool),
        formatBlogList l f ic is2 = formatBlogList (sortFArticles l) f ic is2)
    ∧ (∀ (l : List FArticle) (ic is2 : Bool),
        formatBlogList l BlogFormat.markdown ic is2
          = FormatOutput.markdown (formatMarkdown (sortFArticles l) ic is2))
    ∧ (∀ (l : List FArticle) (ic is2 : Bool),
        formatBlogList l BlogFormat.html ic is2
          = FormatOutput.html (formatHtml (sortFArticles l) ic is2))
    ∧ (∀ (l : List FArticle) (ic is2 : Bool),
        formatBlogList l BlogFormat.csv ic is2
          = FormatOutput.csv (formatCsv (sortFArticles l) ic is2))
    ∧ (∀ (l : List FArticle) (ic is2 : Bool),
        formatBlogList l BlogFormat.json ic is2
          = FormatOutput.json (jsonStringifyFArticles (sortFArticles l)))
    ∧ (orNA none = "N/A" ∧ mdCats none = "N/A" ∧ htmlCats none = "N/A"
        ∧ csvCats none = "" ∧ escapeCsv "" = "")
    ∧ (mdRow fa1 true true = "| 2024-05-01 | [t1](u1) | N/A | N/A | N/A |\n"
        ∧ csvRow fa1 true true = "2024-05-01,\"t1\",u1,,,\n"
        ∧ htmlRow fa1 true true
            = "\n      <tr>\n        <td>2024-05-01</td>\n        <td><a href=\"u1\" target=\"_blank\">t1</a></td>\n        <td>N/A</td>\n        <td>N/A</td>\n        <td>N/A</td>\n      </tr>\n    ") := by
  refine ⟨?_, ?_, ?_, ?_, ?_, ⟨rfl, rfl, rfl, rfl, rfl⟩,
    ⟨by decide, by decide, by decide⟩⟩
  · intro l f ic is2
    cases f <;> simp only [formatBlogList, sortFArticles_idem]
  · intro l ic is2
    rfl
  · intro l ic is2
    rfl
  · intro l ic is2
    rfl
  · intro l ic is2
    rfl
